import Mathlib

/-! yo code generator: embedding of the emitted accessors.

The repository ships five Go text templates (`header.go.tpl`, `index.go.tpl`,
`type.go.tpl`, `yo_db.go.tpl`, `operation.go.tpl`) as string assets in
`v2/module/builtin/tplbin/templates.go`.  This development embeds the code those
templates emit for a table type `T` and its indexes: the error envelope, the
column dispatch (`columnsToPtrs`, `columnsToValues`), the row decoder, the
mutation builders and the read operations.  Template helper functions that live
outside the asset file are parameters (`Funcs`); library calls of the emitted
code (Go conversions, the Spanner client) are parameters (`Runtime`, `YORODB`,
the row materialiser) or small models named after the library function.
-/

set_option autoImplicit false

namespace Yo

/-! ## Schema model read by the templates -/

/-- Column of a table as the templates read it: `.Col.ColumnName`, `.Col.DataType`, `.Col.NotNull`. -/
structure Column where
  ColumnName : String
  DataType : String
  NotNull : Bool
  deriving DecidableEq, Repr

/-- Field of a generated type: `.Name`, `.Type` (storage primitive, here `GoType` since
`Type` is reserved), `.CustomType` (empty when no custom type is bound, which is how
`if .CustomType` tests it) and `.Col`. -/
structure Field where
  Name : String
  GoType : String
  CustomType : String
  Col : Column
  deriving DecidableEq, Repr

/-- Table record: the templates only read `.Table.TableName`. -/
structure Table where
  TableName : String
  deriving DecidableEq, Repr

/-- Generated type `T`: `.Name`, `.Table`, `.Fields`, `.PrimaryKeyFields`. -/
structure GenType where
  Name : String
  Table : Table
  Fields : List Field
  PrimaryKeyFields : List Field
  deriving DecidableEq, Repr

/-- Index record: `.Index.IndexName`, `.Index.IsUnique`. -/
structure IndexInfo where
  IndexName : String
  IsUnique : Bool
  deriving DecidableEq, Repr

/-- Element of `.Indexes` in `index.go.tpl`: `.FuncName`, `.Type` (here `Typ`), `.Index`,
`.Fields` (key fields), `.StoringFields`, `.NullableFields`. -/
structure GenIndex where
  FuncName : String
  Typ : GenType
  Index : IndexInfo
  Fields : List Field
  StoringFields : List Field
  NullableFields : List Field
  deriving DecidableEq, Repr

/-- Template truthiness of `.CustomType`: a non-empty string. -/
def Field.isCustom (f : Field) : Bool := f.CustomType != ""

/-- Template helper functions referenced by the templates but defined outside the asset
file.  They are taken as parameters.  `fieldnames` receives the field list, the short
receiver name and the (possibly absent, then empty) list of fields to leave out. -/
structure Funcs where
  shortname : String → List String → List Field → String
  colname : Column → String
  escapedcolname : Column → String
  escapedcolnames : List Field → String
  colnamesquery : List Field → String → String
  fieldnames : List Field → String → List Field → String
  retype : String → String
  customtypeparam : String → String

/-! ## Error envelope (`yo_db.go.tpl`) -/

/-- Canonical status codes of `google.golang.org/grpc/codes`. -/
inductive Code where
  | OK | Canceled | Unknown | InvalidArgument | DeadlineExceeded | NotFound
  | AlreadyExists | PermissionDenied | ResourceExhausted | FailedPrecondition
  | Aborted | OutOfRange | Unimplemented | Internal | Unavailable | DataLoss
  | Unauthenticated
  deriving DecidableEq, Repr

/-- Go `error` values the emitted code handles: `iterator.Done`, an error of the
Spanner client carrying its status code, and errors built with `fmt.Errorf`. -/
inductive GoError where
  | done
  | spanner (code : Code) (msg : String)
  | errorf (msg : String)
  deriving DecidableEq, Repr

/-- The `yoError` struct. -/
structure yoError where
  err : GoError
  method : String
  table : String
  code : Code
  deriving DecidableEq, Repr

/-- Source: `newErrorWithCode(code, method, table, err)`. -/
def newErrorWithCode (code : Code) (method table : String) (err : GoError) : yoError :=
  { method := method, table := table, err := err, code := code }

/-- Source: `newError(method, table, err)`; `ErrCode` is `spanner.ErrCode`, the backend classifier. -/
def newError (ErrCode : GoError → Code) (method table : String) (err : GoError) : yoError :=
  let code := ErrCode err
  newErrorWithCode code method table err

/-- Source: `func (e yoError) Unwrap() error`. -/
def yoError.Unwrap (e : yoError) : GoError := e.err

/-- Source: `func (e yoError) DBTableName() string`. -/
def yoError.DBTableName (e : yoError) : String := e.table

/-- Source: `func (e yoError) Timeout() bool`. -/
def yoError.Timeout (e : yoError) : Bool := e.code == Code.DeadlineExceeded

/-- Source: `func (e yoError) Temporary() bool`. -/
def yoError.Temporary (e : yoError) : Bool := e.code == Code.DeadlineExceeded

/-- Source: `func (e yoError) NotFound() bool`. -/
def yoError.NotFound (e : yoError) : Bool := e.code == Code.NotFound

/-- Classifier of the Spanner client (`spanner.ErrCode`) on the modelled error values: the
code carried by a Spanner error, `Unknown` for any other error. -/
def spannerErrCode : GoError → Code
  | .spanner c _ => c
  | _ => Code.Unknown

/-! ## Go run time seen by the emitted code -/

/-- Materialisation target handed to `row.Columns`: the address of a struct field
(`&s.Name`) or of a scratch variable of the decoder (`&customtypeparam Name`). -/
inductive Ptr where
  | field (name : String)
  | scratch (name : String)
  deriving DecidableEq, Repr

/-- Library operations the emitted code relies on, over a universe `V` of Go values:
`conv ty v` is the Go conversion `ty(v)`, `zero ty` the zero value of type `ty`,
`isNull v` the null state an argument reports, `ErrCode` is `spanner.ErrCode`, and
`decodeValue p v` is what the Spanner client does when it decodes the column value `v`
into the target `p` (`(*spanner.Row).Column`): it yields the Go value it stores in `*p`,
which may be a normalised form of `v`, or the error it returns when the Go type of the
variable behind `p` cannot hold `v`. -/
structure Runtime (V : Type) where
  conv : String → V → V
  zero : String → V
  isNull : V → Bool
  ErrCode : GoError → Code
  decodeValue : Ptr → V → Except GoError V

/-- Value of the struct `T`, read by field name (`s.Name`). -/
abbrev Struct (V : Type) := String → V

/-- Fetched row (`*spanner.Row`): its column values in order. -/
abbrev Row (V : Type) := List V

/-- Memory a decoder call writes through its targets: the struct under construction and
the scratch variables closed over by the decoder. -/
structure Mem (V : Type) where
  fields : String → V
  scratch : String → V

/-- Assignment `*p = v`. -/
def Mem.store {V : Type} (m : Mem V) : Ptr → V → Mem V
  | .field n, v => { m with fields := Function.update m.fields n v }
  | .scratch n, v => { m with scratch := Function.update m.scratch n v }

/-- Dereference `*p`. -/
def Mem.load {V : Type} (m : Mem V) : Ptr → V
  | .field n => m.fields n
  | .scratch n => m.scratch n

/-- Signature of `row.Columns(ptrs...)`: given the memory before the call it yields the
memory after it and the returned error (`none` for `nil`). -/
abbrev Materialise (V : Type) := Row V → List Ptr → Mem V → Mem V × Option GoError

/-- Model of `errNumOfColValue` of the Spanner client: the error of `Columns` when it is
given `n` targets for a row of `k` columns. -/
def errNumOfColValue (n k : Nat) : GoError :=
  .spanner Code.InvalidArgument
    ("Columns(): number of arguments (" ++ toString n ++ ") does not match row size (" ++
      toString k ++ ")")

/-- Loop of `(*spanner.Row).Columns` over the remaining (target, column value) pairs: each
column is decoded into its target in turn; the first decoding error is returned, the
targets of the earlier columns having been written. -/
def columnsLoop {V : Type} (R : Runtime V) : List (Ptr × V) → Mem V → Mem V × Option GoError
  | [], m => (m, none)
  | (p, v) :: rest, m =>
    match R.decodeValue p v with
    | .error err => (m, some err)
    | .ok x => columnsLoop R rest (m.store p x)

/-- Model of `(*spanner.Row).Columns` of the Spanner client: it fails when the number of
targets differs from the row size, and otherwise decodes column `i` into target `i`. -/
def rowColumns {V : Type} (R : Runtime V) : Materialise V := fun row ptrs m =>
  if ptrs.length ≠ row.length then
    (m, some (errNumOfColValue ptrs.length row.length))
  else
    columnsLoop R (ptrs.zip row) m

/-! ## `type.go.tpl` -/

/-- Go type of the struct field emitted for `f` in `type T struct`. -/
def fieldGoType (F : Funcs) (f : Field) : String :=
  if f.Col.DataType == f.Col.ColumnName then "string"
  else if f.isCustom then F.retype f.CustomType
  else f.GoType

/-- Source: `func TPrimaryKeys() []string`. -/
def TPrimaryKeys (F : Funcs) (t : GenType) : List String :=
  t.PrimaryKeyFields.map (fun f => F.colname f.Col)

/-- Source: `func TColumns() []string`. -/
def TColumns (F : Funcs) (t : GenType) : List String :=
  t.Fields.map (fun f => F.colname f.Col)

/-- The `switch col` of `columnsToPtrs` and `columnsToValues`: the first `case` whose
column name equals `col`, `none` for `default`. -/
def switchCol (F : Funcs) (t : GenType) (col : String) : Option Field :=
  t.Fields.find? (fun f => F.colname f.Col == col)

/-- Loop of `columnsToPtrs` over the remaining columns, `ret` being the slice built so far. -/
def columnsToPtrsLoop (F : Funcs) (t : GenType) (customPtrs : List (String × Ptr)) :
    List Ptr → List String → Except GoError (List Ptr)
  | ret, [] => .ok ret
  | ret, col :: rest =>
    match customPtrs.lookup col with
    | some val => columnsToPtrsLoop F t customPtrs (ret ++ [val]) rest
    | none =>
      match switchCol F t col with
      | some f => columnsToPtrsLoop F t customPtrs (ret ++ [Ptr.field f.Name]) rest
      | none => .error (.errorf ("unknown column: " ++ col))

/-- Source: `func (s *T) columnsToPtrs(cols []string, customPtrs map[string]interface{})`. -/
def columnsToPtrs (F : Funcs) (t : GenType) (cols : List String)
    (customPtrs : List (String × Ptr)) : Except GoError (List Ptr) :=
  columnsToPtrsLoop F t customPtrs [] cols

/-- Value appended by the `case` of field `f` in `columnsToValues`: `Type(s.Name)` for a
custom-type field, `s.Name` otherwise. -/
def fieldValue {V : Type} (R : Runtime V) (s : Struct V) (f : Field) : V :=
  if f.isCustom then R.conv f.GoType (s f.Name) else s f.Name

/-- Loop of `columnsToValues` over the remaining columns. -/
def columnsToValuesLoop {V : Type} (F : Funcs) (R : Runtime V) (t : GenType) (s : Struct V) :
    List V → List String → Except GoError (List V)
  | ret, [] => .ok ret
  | ret, col :: rest =>
    match switchCol F t col with
    | some f => columnsToValuesLoop F R t s (ret ++ [fieldValue R s f]) rest
    | none => .error (.errorf ("unknown column: " ++ col))

/-- Source: `func (s *T) columnsToValues(cols []string) ([]interface{}, error)`. -/
def columnsToValues {V : Type} (F : Funcs) (R : Runtime V) (t : GenType) (s : Struct V)
    (cols : List String) : Except GoError (List V) :=
  columnsToValuesLoop F R t s [] cols

/-- The map literal `customPtrs` of `newT_Decoder`: one entry per custom-type field, from
its column name to the address of its scratch variable. -/
def customPtrs (F : Funcs) (t : GenType) : List (String × Ptr) :=
  (t.Fields.filter Field.isCustom).map
    (fun f => (F.colname f.Col, Ptr.scratch (F.customtypeparam f.Name)))

/-- The declaration `var s T` inside the decoder: every field holds the zero value of its
type (names that are not fields of `T` are never read). -/
def zeroStruct {V : Type} (F : Funcs) (R : Runtime V) (t : GenType) : Struct V := fun name =>
  match t.Fields.find? (fun f => f.Name == name) with
  | some f => R.zero (fieldGoType F f)
  | none => R.zero ""

/-- The declarations `var customtypeparam_Name Type` of `newT_Decoder`: every scratch
variable starts at the zero value of the storage primitive. -/
def zeroScratch {V : Type} (F : Funcs) (R : Runtime V) (t : GenType) : String → V := fun name =>
  match t.Fields.find? (fun f => f.isCustom && F.customtypeparam f.Name == name) with
  | some f => R.zero f.GoType
  | none => R.zero ""

/-- The assignments `s.Name = retype CustomType (customtypeparam Name)` the decoder runs,
in field order, for every custom-type field after `row.Columns` returned. -/
def assignCustom {V : Type} (F : Funcs) (R : Runtime V) (fields : List Field)
    (s : Struct V) (sc : String → V) : Struct V :=
  fields.foldl
    (fun s f =>
      if f.isCustom then
        Function.update s f.Name (R.conv (F.retype f.CustomType) (sc (F.customtypeparam f.Name)))
      else s)
    s

/-- Source: the closure returned by `newT_Decoder(cols)`.  The scratch variables persist
between calls, so a call takes their current contents and returns their new contents
next to the result. -/
def newDecoder {V : Type} (F : Funcs) (R : Runtime V) (rc : Materialise V) (t : GenType)
    (cols : List String) (sc : String → V) (row : Row V) :
    Except GoError (Struct V) × (String → V) :=
  let s := zeroStruct F R t
  match columnsToPtrs F t cols (customPtrs F t) with
  | .error err => (.error err, sc)
  | .ok ptrs =>
    match rc row ptrs { fields := s, scratch := sc } with
    | (m, some err) => (.error err, m.scratch)
    | (m, none) => (.ok (assignCustom F R t.Fields m.fields m.scratch), m.scratch)

/-! ## Storage backend consumed by the emitted code -/

/-- Go slice `[]*T`: `none` is the nil slice, `some l` a non-nil slice with elements `l`. -/
abbrev Slice (α : Type) := Option (List α)

/-- Go `append(res, x)`. -/
def Slice.append {α : Type} (res : Slice α) (x : α) : Slice α :=
  some (res.getD [] ++ [x])

/-- Result stream (`*spanner.RowIterator`): the rows it still yields and the status it
reports once they are used up (`none` for `iterator.Done`, else the failure). -/
structure RowIterator (V : Type) where
  rows : List (Row V)
  err : Option GoError

/-- Model of `(*spanner.RowIterator).Next`: the next row, or the terminal status. -/
def RowIterator.Next {V : Type} (it : RowIterator V) : Except GoError (Row V) × RowIterator V :=
  match it.rows with
  | row :: rest => (.ok row, { it with rows := rest })
  | [] => (.error (it.err.getD GoError.done), it)

/-- Loop of `(*spanner.RowIterator).Do`: `f` is called on each row in turn and a non-nil
error of `f` is returned at once; when `Next` reports `iterator.Done` the result is nil,
and any other error of `Next` is returned.  `σ` is the state the callback closes over. -/
def doRows {V σ : Type} (f : Row V → σ → Option GoError × σ) (final : Option GoError) :
    List (Row V) → σ → Option GoError × σ
  | [], st =>
    match final.getD GoError.done with
    | .done => (none, st)
    | err => (some err, st)
  | row :: rest, st =>
    match f row st with
    | (some err, st1) => (some err, st1)
    | (none, st1) => doRows f final rest st1

/-- Model of `(*spanner.RowIterator).Do`. -/
def RowIterator.Do {V σ : Type} (it : RowIterator V) (f : Row V → σ → Option GoError × σ)
    (st : σ) : Option GoError × σ :=
  doRows f it.err it.rows st

/-- Statement built with `spanner.NewStatement(sqlstr)` and its `Params` map. -/
structure Statement (V : Type) where
  SQL : String
  Params : List (String × V)

/-- The interface `YORODB`; `K` is `spanner.KeySet`, a key is the list of its parts. -/
structure YORODB (V K : Type) where
  ReadRow : String → List V → List String → Except GoError (Row V)
  Read : String → K → List String → RowIterator V
  ReadUsingIndex : String → String → K → List String → RowIterator V
  Query : Statement V → RowIterator V

/-- Kind of a `*spanner.Mutation`. -/
inductive MutationOp where
  | insert | update | insertOrUpdate | delete
  deriving DecidableEq, Repr

/-- Mutation descriptor: operation, table, column list and value list. -/
structure Mutation (V : Type) where
  op : MutationOp
  table : String
  columns : List String
  values : List V

/-- Model of `spanner.Update(table, cols, vals)`. -/
def spannerUpdate {V : Type} (table : String) (cols : List String) (vals : List V) : Mutation V :=
  { op := MutationOp.update, table := table, columns := cols, values := vals }

/-! ## `operation.go.tpl` -/

/-- Source: `func (s *T) UpdateColumns(ctx, cols ...string) (*spanner.Mutation, error)`. -/
def UpdateColumns {V : Type} (F : Funcs) (R : Runtime V) (t : GenType) (s : Struct V)
    (cols : List String) : Option (Mutation V) × Option yoError :=
  let colsWithPKeys := cols ++ TPrimaryKeys F t
  match columnsToValues F R t s colsWithPKeys with
  | .error err =>
    (none, some (newErrorWithCode Code.InvalidArgument (t.Name ++ ".UpdateColumns")
      t.Table.TableName err))
  | .ok values => (some (spannerUpdate t.Table.TableName colsWithPKeys values), none)

/-- Source: `func FindT(ctx, db, primary key values) (*T, error)`; `key` is the
`spanner.Key` built from the arguments. -/
def FindT {V K : Type} (F : Funcs) (R : Runtime V) (rc : Materialise V) (db : YORODB V K)
    (t : GenType) (key : List V) : Option (Struct V) × Option yoError :=
  match db.ReadRow t.Table.TableName key (TColumns F t) with
  | .error err => (none, some (newError R.ErrCode ("Find" ++ t.Name) t.Table.TableName err))
  | .ok row =>
    match (newDecoder F R rc t (TColumns F t) (zeroScratch F R t) row).1 with
    | .error err =>
      (none, some (newErrorWithCode Code.Internal ("Find" ++ t.Name) t.Table.TableName err))
    | .ok s => (some s, none)

/-- The callback passed to `rows.Do` by `ReadT` and `ReadTByIdx`: it decodes the row and
appends the struct to `res`; its state is `res` and the scratch variables of the decoder. -/
def readCallback {V : Type} (F : Funcs) (R : Runtime V) (rc : Materialise V) (t : GenType)
    (columns : List String) (row : Row V) (st : Slice (Struct V) × (String → V)) :
    Option GoError × (Slice (Struct V) × (String → V)) :=
  match newDecoder F R rc t columns st.2 row with
  | (.error err, sc) => (some err, (st.1, sc))
  | (.ok s, sc) => (none, (st.1.append s, sc))

/-- Source: `func ReadT(ctx, db, keys spanner.KeySet) ([]*T, error)`. -/
def ReadT {V K : Type} (F : Funcs) (R : Runtime V) (rc : Materialise V) (db : YORODB V K)
    (t : GenType) (keys : K) : Slice (Struct V) × Option yoError :=
  let rows := db.Read t.Table.TableName keys (TColumns F t)
  match rows.Do (readCallback F R rc t (TColumns F t)) (none, zeroScratch F R t) with
  | (some err, _) =>
    (none, some (newErrorWithCode Code.Internal ("Read" ++ t.Name) t.Table.TableName err))
  | (none, st) => (st.1, none)

/-- Functions `operation.go.tpl` can emit for a type. -/
inductive OpDecl where
  | Insert | Update | InsertOrUpdate | UpdateColumns | FindT | ReadT | Delete
  deriving DecidableEq, Repr

/-- The declarations `operation.go.tpl` emits for `t`, in order: `Insert`, then the block
between `if ne (fieldnames .Fields $short .PrimaryKeyFields) ""` and its `end`, then
`Delete`. -/
def operationTpl (F : Funcs) (t : GenType) : List OpDecl :=
  let short := F.shortname t.Name ["err", "res", "sqlstr", "db", "YOLog"] []
  [OpDecl.Insert] ++
    (if F.fieldnames t.Fields short t.PrimaryKeyFields != "" then
      [OpDecl.Update, OpDecl.InsertOrUpdate, OpDecl.UpdateColumns, OpDecl.FindT, OpDecl.ReadT]
    else []) ++
    [OpDecl.Delete]

/-! ## `index.go.tpl` -/

/-- Modelled from the spec: the template helper `columncount` is defined outside the asset
file; it is taken to be the number of the fields. -/
def columncount (fields : List Field) : Nat := fields.length

/-- Modelled from the spec: the template helper `nullcheck` is defined outside the asset
file; the expression it renders is taken to test the null state of the argument supplied
for the field. -/
def nullcheck {V : Type} (R : Runtime V) (arg : V) : Bool := R.isNull arg

/-- The string assigned to `conds[i]` for key field `f`, `arg` being the argument supplied
for it. -/
def condClause {V : Type} (F : Funcs) (R : Runtime V) (i : Nat) (f : Field) (arg : V) : String :=
  if f.Col.NotNull then
    F.escapedcolname f.Col ++ " = @param" ++ toString i
  else if nullcheck R arg then
    F.escapedcolname f.Col ++ " IS NULL"
  else
    F.escapedcolname f.Col ++ " = @param" ++ toString i

/-- The assignments `conds[i] = ...` emitted by `range $i, $f := .Fields`, from index `i` on. -/
def fillConds {V : Type} (F : Funcs) (R : Runtime V) (args : Nat → V) :
    Nat → List Field → List String → List String
  | _, [], conds => conds
  | i, f :: rest, conds => fillConds F R args (i + 1) rest (conds.set i (condClause F R i f (args i)))

/-- The part of `sqlstr` before `WHERE`. -/
def selectFrom (F : Funcs) (idx : GenIndex) : String :=
  "SELECT " ++ (F.escapedcolnames idx.Typ.Fields ++ " ") ++
    ("FROM " ++ idx.Typ.Table.TableName ++ "@\x7bFORCE_INDEX=" ++ idx.Index.IndexName ++ "\x7d ")

/-- The value of `sqlstr` when the statement is built; `args i` is the argument supplied
for key field `i`. -/
def sqlstr {V : Type} (F : Funcs) (R : Runtime V) (idx : GenIndex) (args : Nat → V) : String :=
  if idx.NullableFields.isEmpty then
    selectFrom F idx ++ ("WHERE " ++ F.colnamesquery idx.Fields " AND ")
  else
    let conds := List.replicate (columncount idx.Fields) ""
    let conds := fillConds F R args 0 idx.Fields conds
    selectFrom F idx ++ ("WHERE " ++ String.intercalate " AND " conds)

/-- The assignments `stmt.Params["param<i>"] = ...`, from index `i` on. -/
def stmtParams {V : Type} (R : Runtime V) (args : Nat → V) : Nat → List Field → List (String × V)
  | _, [] => []
  | i, f :: rest =>
    ("param" ++ toString i, if f.isCustom then R.conv f.GoType (args i) else args i) ::
      stmtParams R args (i + 1) rest

/-- The statement handed to `db.Query`. -/
def findStmt {V : Type} (F : Funcs) (R : Runtime V) (idx : GenIndex) (args : Nat → V) :
    Statement V :=
  { SQL := sqlstr F R idx args, Params := stmtParams R args 0 idx.Fields }

/-- Body of `Find<FuncName>` for a unique index, after `iter := db.Query(ctx, stmt)`. -/
def findUnique {V : Type} (F : Funcs) (R : Runtime V) (rc : Materialise V) (idx : GenIndex)
    (iter : RowIterator V) : Option (Struct V) × Option yoError :=
  let method := "Find" ++ idx.FuncName
  let table := idx.Typ.Table.TableName
  match iter.Next.1 with
  | .error err =>
    if err = GoError.done then
      (none, some (newErrorWithCode Code.NotFound method table err))
    else
      (none, some (newError R.ErrCode method table err))
  | .ok row =>
    match (newDecoder F R rc idx.Typ (TColumns F idx.Typ) (zeroScratch F R idx.Typ) row).1 with
    | .error err => (none, some (newErrorWithCode Code.Internal method table err))
    | .ok s => (some s, none)

/-- The `for` loop of `Find<FuncName>` for a non-unique index: each turn calls
`iter.Next()`, which yields the head of the remaining rows or, once none remain, the
terminal status `final`; `sc` holds the scratch variables of the decoder, `res` the
slice built so far. -/
def findLoop {V : Type} (F : Funcs) (R : Runtime V) (rc : Materialise V) (idx : GenIndex)
    (final : Option GoError) :
    List (Row V) → (String → V) → Slice (Struct V) → Slice (Struct V) × Option yoError
  | [], _, res =>
    match final.getD GoError.done with
    | .done => (res, none)
    | err => (none, some (newError R.ErrCode ("Find" ++ idx.FuncName) idx.Typ.Table.TableName err))
  | row :: rest, sc, res =>
    match newDecoder F R rc idx.Typ (TColumns F idx.Typ) sc row with
    | (.error err, _) =>
      (none, some (newErrorWithCode Code.Internal ("Find" ++ idx.FuncName)
        idx.Typ.Table.TableName err))
    | (.ok s, sc1) => findLoop F R rc idx final rest sc1 (res.append s)

/-- Body of `Find<FuncName>` for a non-unique index, after `iter := db.Query(ctx, stmt)`;
`res` starts as the empty non-nil slice. -/
def findMany {V : Type} (F : Funcs) (R : Runtime V) (rc : Materialise V) (idx : GenIndex)
    (iter : RowIterator V) : Slice (Struct V) × Option yoError :=
  findLoop F R rc idx iter.err iter.rows (zeroScratch F R idx.Typ) (some [])

/-- What `Find<FuncName>` returns: a pointer and an error for a unique index, a slice and
an error otherwise. -/
inductive FindResult (V : Type) where
  | one (r : Option (Struct V) × Option yoError)
  | many (r : Slice (Struct V) × Option yoError)

/-- Source: `func Find<FuncName>(ctx, db, key field values)`.  The call of the logging
hook `YOLog` before the query does not take part in the result and is left out. -/
def FindByIdx {V K : Type} (F : Funcs) (R : Runtime V) (rc : Materialise V) (db : YORODB V K)
    (idx : GenIndex) (args : Nat → V) : FindResult V :=
  let stmt := findStmt F R idx args
  if idx.Index.IsUnique then
    FindResult.one (findUnique F R rc idx (db.Query stmt))
  else
    FindResult.many (findMany F R rc idx (db.Query stmt))

/-- The slice `columns` of `Read<FuncName>`: primary key, index key and storing columns. -/
def readIdxColumns (F : Funcs) (idx : GenIndex) : List String :=
  idx.Typ.PrimaryKeyFields.map (fun f => F.colname f.Col) ++
    idx.Fields.map (fun f => F.colname f.Col) ++
    idx.StoringFields.map (fun f => F.colname f.Col)

/-- Source: `func Read<FuncName>(ctx, db, keys spanner.KeySet) ([]*T, error)`.  The
template emits it for every index, unique or not (its Go doc comment reads
"Generated from unique index" in both cases). -/
def ReadByIdx {V K : Type} (F : Funcs) (R : Runtime V) (rc : Materialise V) (db : YORODB V K)
    (idx : GenIndex) (keys : K) : Slice (Struct V) × Option yoError :=
  let columns := readIdxColumns F idx
  let rows := db.ReadUsingIndex idx.Typ.Table.TableName idx.Index.IndexName keys columns
  match rows.Do (readCallback F R rc idx.Typ columns) (none, zeroScratch F R idx.Typ) with
  | (some err, _) =>
    (none, some (newErrorWithCode Code.Internal ("Read" ++ idx.FuncName)
      idx.Typ.Table.TableName err))
  | (none, st) => (st.1, none)

/-! ## Specification-side notions used to state the properties -/

/-- The outcomes of the successive calls of one decoder on the rows of a stream, the
scratch variables being carried from each call to the next. -/
def decodeSeq {V : Type} (F : Funcs) (R : Runtime V) (rc : Materialise V) (t : GenType)
    (cols : List String) : (String → V) → List (Row V) → List (Except GoError (Struct V))
  | _, [] => []
  | sc, row :: rest =>
    (newDecoder F R rc t cols sc row).1 ::
      decodeSeq F R rc t cols (newDecoder F R rc t cols sc row).2 rest

/-- Conditions under which the code emitted for `t` compiles: the `case` labels (column
names), the struct field names and the scratch variable names are pairwise distinct. -/
def GenType.WellFormed (F : Funcs) (t : GenType) : Prop :=
  (t.Fields.map (fun f => F.colname f.Col)).Nodup ∧
  (t.Fields.map (fun f => f.Name)).Nodup ∧
  ((t.Fields.filter Field.isCustom).map (fun f => F.customtypeparam f.Name)).Nodup

/-- The target one turn of the loop of `columnsToPtrs` appends for column `col` when the
decoder passes its own `customPtrs`: the entry of `customPtrs` if there is one, else the
address chosen by the `switch`; `none` when the turn returns the unknown-column error. -/
def colTarget (F : Funcs) (t : GenType) (col : String) : Option Ptr :=
  match (customPtrs F t).lookup col with
  | some val => some val
  | none => (switchCol F t col).map (fun f => Ptr.field f.Name)

/-- The materialisation target of field `f`: its scratch variable when `f` has a custom
type, the address of the struct field otherwise. -/
def fieldTarget (F : Funcs) (f : Field) : Ptr :=
  if f.isCustom then Ptr.scratch (F.customtypeparam f.Name) else Ptr.field f.Name

/-! ## A concrete schema for evaluating the embedding -/

/-- Small universe of Go values: integers, strings, the null value (a `spanner.NullString`
with `Valid` false and empty `StringVal`, stored as `NULL`), and `invalidString stale`, a
`spanner.NullString` with `Valid` false that still carries the string `stale`. -/
inductive GoValue where
  | int (n : Int)
  | str (s : String)
  | null
  | invalidString (stale : String)
  deriving DecidableEq, Repr

/-- Error of the Spanner client when a column value does not fit the Go type of its target. -/
def errDecode : GoError :=
  GoError.spanner Code.InvalidArgument "type of the destination does not match the column value"

/-- Decoding of the Spanner client into the targets of the `Users` decoder: `Status`
(a `spanner.NullString`) takes strings and `NULL`, an invalid `NullString` being read back
as the null value; `Email` (a `string`) takes strings only; the integer targets (`Id` and
the scratch variable of `Score`) take integers only. -/
def sampleDecode (p : Ptr) (v : GoValue) : Except GoError GoValue :=
  if p = Ptr.field "Status" then
    match v with
    | .str s => .ok (.str s)
    | .null => .ok .null
    | .invalidString _ => .ok .null
    | .int _ => .error errDecode
  else if p = Ptr.field "Email" then
    match v with
    | .str s => .ok (.str s)
    | _ => .error errDecode
  else
    match v with
    | .int n => .ok (.int n)
    | _ => .error errDecode

/-- A concrete choice of the template helper functions. -/
def sampleFuncs : Funcs where
  shortname := fun name _ _ => "v" ++ name
  colname := fun c => c.ColumnName
  escapedcolname := fun c => "`" ++ c.ColumnName ++ "`"
  escapedcolnames := fun fs => String.intercalate ", " (fs.map (fun f => "`" ++ f.Col.ColumnName ++ "`"))
  colnamesquery := fun fs sep =>
    String.intercalate sep (fs.map (fun f => "`" ++ f.Col.ColumnName ++ "` = @param"))
  fieldnames := fun fs short ignore =>
    String.intercalate ", " ((fs.filter (fun f => !ignore.contains f)).map (fun f => short ++ "." ++ f.Name))
  retype := fun ty => ty
  customtypeparam := fun name => "yo" ++ name

/-- A concrete run time: conversions keep the representation, the integer types (`int64`
and the custom type `Score` over it) have zero value `0`, the classifier is that of the
Spanner client. -/
def sampleRuntime : Runtime GoValue where
  conv := fun _ v => v
  zero := fun ty =>
    if ty == "string" then GoValue.str ""
    else if ty == "spanner.NullString" then GoValue.null
    else GoValue.int 0
  isNull := fun v =>
    match v with
    | .null => true
    | .invalidString _ => true
    | _ => false
  ErrCode := spannerErrCode
  decodeValue := sampleDecode

/-- A run time whose conversions between `int64` and the custom type `Score` undo each
other but do not send zero to zero: `Score(n)` is `n + 1` and `int64(x)` is `x - 1`. -/
def shiftRuntime : Runtime GoValue where
  conv := fun ty v =>
    match v with
    | .int n => if ty == "Score" then GoValue.int (n + 1)
                else if ty == "int64" then GoValue.int (n - 1) else GoValue.int n
    | w => w
  zero := sampleRuntime.zero
  isNull := sampleRuntime.isNull
  ErrCode := spannerErrCode
  decodeValue := sampleDecode

/-- Field `Id` of `Users`. -/
def fieldId : Field :=
  { Name := "Id", GoType := "int64", CustomType := "", Col := { ColumnName := "id", DataType := "INT64", NotNull := true } }

/-- Field `Email` of `Users`. -/
def fieldEmail : Field :=
  { Name := "Email", GoType := "string", CustomType := "", Col := { ColumnName := "email", DataType := "STRING", NotNull := true } }

/-- Field `Status` of `Users`, nullable. -/
def fieldStatus : Field :=
  { Name := "Status", GoType := "spanner.NullString", CustomType := "", Col := { ColumnName := "status", DataType := "STRING", NotNull := false } }

/-- Field `Score` of `Users`, bound to the custom type `Score` over `int64`. -/
def fieldScore : Field :=
  { Name := "Score", GoType := "int64", CustomType := "Score", Col := { ColumnName := "score", DataType := "INT64", NotNull := true } }

/-- The type generated for table `Users(id PK, email, status NULLABLE, score)`. -/
def usersType : GenType :=
  { Name := "Users", Table := { TableName := "Users" },
    Fields := [fieldId, fieldEmail, fieldStatus, fieldScore], PrimaryKeyFields := [fieldId] }

/-- Unique index on `email`. -/
def usersByEmail : GenIndex :=
  { FuncName := "UsersByEmail", Typ := usersType, Index := { IndexName := "UsersByEmail", IsUnique := true },
    Fields := [fieldEmail], StoringFields := [], NullableFields := [] }

/-- Non-unique index on `(email, status)`, whose second key field is nullable. -/
def usersByEmailStatus : GenIndex :=
  { FuncName := "UsersByEmailStatus", Typ := usersType,
    Index := { IndexName := "UsersByEmailStatus", IsUnique := false },
    Fields := [fieldEmail, fieldStatus], StoringFields := [], NullableFields := [fieldStatus] }

/-- A type whose only column is its primary key. -/
def tagsType : GenType :=
  { Name := "Tags", Table := { TableName := "Tags" }, Fields := [fieldId], PrimaryKeyFields := [fieldId] }

/-- The row `{id: 1, email: "a@b.com", status: NULL, score: 7}` as a struct value. -/
def sampleUser : Struct GoValue := fun name =>
  if name == "Id" then GoValue.int 1
  else if name == "Email" then GoValue.str "a@b.com"
  else if name == "Score" then GoValue.int 7
  else GoValue.null

/-- The user `sampleUser` whose `Status` is an invalid `NullString` carrying `"ghost"`. -/
def ghostUser : Struct GoValue := fun name =>
  if name == "Status" then GoValue.invalidString "ghost" else sampleUser name

/-- A backend whose streams all yield the rows `rows` and then report `final`, and whose
point read returns `point`. -/
def sampleDb (rows : List (Row GoValue)) (final : Option GoError)
    (point : Except GoError (Row GoValue)) : YORODB GoValue Unit where
  ReadRow := fun _ _ _ => point
  Read := fun _ _ _ => { rows := rows, err := final }
  ReadUsingIndex := fun _ _ _ _ => { rows := rows, err := final }
  Query := fun _ => { rows := rows, err := final }

/-- A failure of the backend whose status code is `DeadlineExceeded`. -/
def deadlineErr : GoError := GoError.spanner Code.DeadlineExceeded "context deadline exceeded"

/-- The stored form of `sampleUser`, in the column order of `Users`. -/
def sampleRow : Row GoValue :=
  [GoValue.int 1, GoValue.str "a@b.com", GoValue.null, GoValue.int 7]

/-- Arguments of a lookup by `(email, status)` with no status supplied. -/
def sampleArgs : Nat → GoValue := fun i =>
  if i = 0 then GoValue.str "a@b.com" else GoValue.null

/-! ## Properties of the error envelope -/

/-- C9: for an envelope built by `newErrorWithCode`, `Unwrap` is the cause; `Timeout`,
`Temporary` and `NotFound` depend on the code alone (two envelopes with the same code
agree whatever their operation, table and cause), `NotFound` holds exactly for code
`NotFound` and `Timeout` exactly for `DeadlineExceeded`; `newError` builds the same
envelope with the code the backend classifier gives for the cause. -/
theorem yoError_classified_by_code (ErrCode : GoError → Code) (code : Code)
    (method table method2 table2 : String) (cause cause2 : GoError) :
    (newErrorWithCode code method table cause).Unwrap = cause ∧
    (newErrorWithCode code method table cause).Timeout
      = (newErrorWithCode code method2 table2 cause2).Timeout ∧
    (newErrorWithCode code method table cause).Temporary
      = (newErrorWithCode code method2 table2 cause2).Temporary ∧
    (newErrorWithCode code method table cause).NotFound
      = (newErrorWithCode code method2 table2 cause2).NotFound ∧
    ((newErrorWithCode code method table cause).NotFound = true ↔ code = Code.NotFound) ∧
    ((newErrorWithCode code method table cause).Timeout = true ↔ code = Code.DeadlineExceeded) ∧
    newError ErrCode method table cause
      = newErrorWithCode (ErrCode cause) method table cause := by
  refine ⟨rfl, rfl, rfl, rfl, ?_, ?_, rfl⟩
  · simp [newErrorWithCode, yoError.NotFound]
  · simp [newErrorWithCode, yoError.Timeout]

/-! ## The column dispatch -/

theorem switchCol_some {F : Funcs} {t : GenType} {c : String} {f : Field}
    (h : switchCol F t c = some f) : f ∈ t.Fields ∧ F.colname f.Col = c := by
  unfold switchCol at h
  refine ⟨List.mem_of_find?_eq_some h, ?_⟩
  have := List.find?_some h
  simpa using this

theorem switchCol_eq_none_iff (F : Funcs) (t : GenType) (c : String) :
    switchCol F t c = none ↔ c ∉ TColumns F t := by
  unfold switchCol TColumns
  rw [List.find?_eq_none]
  simp only [List.mem_map, not_exists, not_and, beq_iff_eq, Bool.not_eq_true]

theorem switchCol_of_mem {F : Funcs} {t : GenType} {c : String} (h : c ∈ TColumns F t) :
    ∃ f, switchCol F t c = some f := by
  cases hs : switchCol F t c with
  | none => exact absurd h ((switchCol_eq_none_iff F t c).1 hs)
  | some f => exact ⟨f, rfl⟩

/-- The value `columnsToValues` appends for column `c`, when `c` is a column of `t`. -/
theorem columnsToValuesLoop_ok {V : Type} (F : Funcs) (R : Runtime V) (t : GenType)
    (s : Struct V) (cols : List String) (ret : List V) (h : ∀ c ∈ cols, c ∈ TColumns F t) :
    columnsToValuesLoop F R t s ret cols
      = .ok (ret ++ cols.filterMap (fun c => (switchCol F t c).map (fieldValue R s))) := by
  induction cols generalizing ret with
  | nil => simp [columnsToValuesLoop]
  | cons c rest ih =>
    obtain ⟨f, hf⟩ := switchCol_of_mem (h c (List.mem_cons_self c rest))
    have hrest : ∀ d ∈ rest, d ∈ TColumns F t := fun d hd => h d (List.mem_cons_of_mem c hd)
    simp [columnsToValuesLoop, hf, ih _ hrest]

theorem columnsToValuesLoop_error {V : Type} (F : Funcs) (R : Runtime V) (t : GenType)
    (s : Struct V) (cols : List String) (ret : List V) (h : ∃ c ∈ cols, c ∉ TColumns F t) :
    ∃ c ∈ cols, c ∉ TColumns F t ∧
      columnsToValuesLoop F R t s ret cols = .error (.errorf ("unknown column: " ++ c)) := by
  induction cols generalizing ret with
  | nil => simp at h
  | cons c rest ih =>
    cases hs : switchCol F t c with
    | none =>
      exact ⟨c, List.mem_cons_self c rest, (switchCol_eq_none_iff F t c).1 hs,
        by simp [columnsToValuesLoop, hs]⟩
    | some f =>
      have hc : c ∈ TColumns F t := by
        by_contra hn
        rw [(switchCol_eq_none_iff F t c).2 hn] at hs
        cases hs
      obtain ⟨d, hd, hdn⟩ := h
      have hdrest : d ∈ rest := by
        rcases List.mem_cons.1 hd with rfl | hd
        · exact absurd hc hdn
        · exact hd
      obtain ⟨e, he, hen, heq⟩ := ih (ret ++ [fieldValue R s f]) ⟨d, hdrest, hdn⟩
      exact ⟨e, List.mem_cons_of_mem c he, hen, by simp [columnsToValuesLoop, hs, heq]⟩

theorem values_forall₂ {V : Type} (F : Funcs) (R : Runtime V) (t : GenType) (s : Struct V)
    (cols : List String) (h : ∀ c ∈ cols, c ∈ TColumns F t) :
    List.Forall₂
      (fun c v => ∃ f ∈ t.Fields, F.colname f.Col = c ∧ switchCol F t c = some f ∧
        v = fieldValue R s f) cols
      (cols.filterMap (fun c => (switchCol F t c).map (fieldValue R s))) := by
  induction cols with
  | nil => simp
  | cons c rest ih =>
    obtain ⟨f, hf⟩ := switchCol_of_mem (h c (List.mem_cons_self c rest))
    have hrest : ∀ d ∈ rest, d ∈ TColumns F t := fun d hd => h d (List.mem_cons_of_mem c hd)
    simp only [List.filterMap_cons, hf, Option.map_some']
    exact List.Forall₂.cons ⟨f, (switchCol_some hf).1, (switchCol_some hf).2, hf, rfl⟩ (ih hrest)

/-! ## `UpdateColumns` -/

theorem UpdateColumns_ok {V : Type} (F : Funcs) (R : Runtime V) (t : GenType) (s : Struct V)
    (cols : List String) (h : ∀ c ∈ cols ++ TPrimaryKeys F t, c ∈ TColumns F t) :
    UpdateColumns F R t s cols
      = (some (spannerUpdate t.Table.TableName (cols ++ TPrimaryKeys F t)
          ((cols ++ TPrimaryKeys F t).filterMap
            (fun c => (switchCol F t c).map (fieldValue R s)))), none) := by
  simp only [UpdateColumns, columnsToValues, columnsToValuesLoop_ok F R t s _ [] h, List.nil_append]

theorem UpdateColumns_error {V : Type} (F : Funcs) (R : Runtime V) (t : GenType) (s : Struct V)
    (cols : List String) (h : ∃ c ∈ cols ++ TPrimaryKeys F t, c ∉ TColumns F t) :
    ∃ c ∈ cols ++ TPrimaryKeys F t, c ∉ TColumns F t ∧
      UpdateColumns F R t s cols
        = (none, some (newErrorWithCode Code.InvalidArgument (t.Name ++ ".UpdateColumns")
            t.Table.TableName (.errorf ("unknown column: " ++ c)))) := by
  obtain ⟨c, hc, hn, heq⟩ := columnsToValuesLoop_error F R t s _ [] h
  exact ⟨c, hc, hn, by simp only [UpdateColumns, columnsToValues, heq]⟩

/-- C3, as the code behaves: when the names in `cols` are columns of `T` and the
primary-key columns are pairwise distinct columns of `T`, `T.UpdateColumns(cols...)`
returns a mutation whose column list is `cols` followed by `TPrimaryKeys()`, nothing
being removed: each primary-key column occurs once more than it occurs in `cols`, so
exactly once if and only if `cols` does not list it. -/
theorem UpdateColumns_columns_concat {V : Type} (F : Funcs) (R : Runtime V) (t : GenType)
    (s : Struct V) (cols : List String)
    (hcols : ∀ c ∈ cols, c ∈ TColumns F t)
    (hpk : ∀ c ∈ TPrimaryKeys F t, c ∈ TColumns F t)
    (hnodup : (TPrimaryKeys F t).Nodup) :
    ∃ m, UpdateColumns F R t s cols = (some m, none) ∧
      m.columns = cols ++ TPrimaryKeys F t ∧
      (∀ p ∈ TPrimaryKeys F t, m.columns.count p = cols.count p + 1) ∧
      (∀ p ∈ TPrimaryKeys F t, (m.columns.count p = 1 ↔ p ∉ cols)) := by
  have hall : ∀ c ∈ cols ++ TPrimaryKeys F t, c ∈ TColumns F t := by
    intro c hc
    rcases List.mem_append.1 hc with h | h
    · exact hcols c h
    · exact hpk c h
  refine ⟨_, UpdateColumns_ok F R t s cols hall, rfl, ?_, ?_⟩
  · intro p hp
    simp [spannerUpdate, List.count_append, List.count_eq_one_of_mem hnodup hp]
  · intro p hp
    simp [spannerUpdate, List.count_append, List.count_eq_one_of_mem hnodup hp,
      List.count_eq_zero]

/-- Instance of C3 as the code behaves on `Users` with `cols = ["email"]`. -/
theorem UpdateColumns_columns_concat_users :
    (∀ c ∈ ["email"], c ∈ TColumns sampleFuncs usersType) ∧
    (∃ m, UpdateColumns sampleFuncs sampleRuntime usersType sampleUser ["email"] = (some m, none) ∧
      m.columns = ["email"] ++ TPrimaryKeys sampleFuncs usersType ∧
      (∀ p ∈ TPrimaryKeys sampleFuncs usersType, m.columns.count p = ["email"].count p + 1) ∧
      (∀ p ∈ TPrimaryKeys sampleFuncs usersType, (m.columns.count p = 1 ↔ p ∉ ["email"]))) :=
  ⟨by decide,
    UpdateColumns_columns_concat sampleFuncs sampleRuntime usersType sampleUser ["email"]
      (by decide) (by decide) (by decide)⟩

/-- C3 fails as stated: on `Users`, whose primary key is `id`, `UpdateColumns("id")`
returns a mutation whose column list is `["id", "id"]`; the primary-key column, listed by
the caller, occurs twice. -/
theorem UpdateColumns_duplicates_listed_key :
    (∀ c ∈ ["id"], c ∈ TColumns sampleFuncs usersType) ∧
    (UpdateColumns sampleFuncs sampleRuntime usersType sampleUser ["id"]).1.map (fun m => m.columns)
      = some ["id", "id"] ∧
    (UpdateColumns sampleFuncs sampleRuntime usersType sampleUser ["id"]).2 = none ∧
    "id" ∈ TPrimaryKeys sampleFuncs usersType ∧
    List.count "id" ["id", "id"] = 2 := by
  refine ⟨by decide, by decide, by decide, by decide, by decide⟩

/-- C4: when the primary-key columns of `T` are among its columns, `T.UpdateColumns(cols...)`
returns an error exactly when some name in `cols` is not a column of `T`; the value is then
nil and the envelope has code `InvalidArgument`, operation `T.UpdateColumns` and the table
of `T`; otherwise the mutation lists `cols` followed by the primary keys and carries one
value per listed column, the i-th being the value of a field of `T` whose column name is
the i-th listed name (the one the `switch` selects), converted to the storage primitive
for a custom-type field. -/
theorem UpdateColumns_error_iff_unknown_column {V : Type} (F : Funcs) (R : Runtime V)
    (t : GenType) (s : Struct V) (cols : List String)
    (hpk : ∀ c ∈ TPrimaryKeys F t, c ∈ TColumns F t) :
    ((UpdateColumns F R t s cols).2 ≠ none ↔ ∃ c ∈ cols, c ∉ TColumns F t) ∧
    (∀ e, (UpdateColumns F R t s cols).2 = some e →
      (UpdateColumns F R t s cols).1 = none ∧ e.code = Code.InvalidArgument ∧
      e.code ≠ Code.NotFound ∧ e.code ≠ Code.Internal ∧
      e.method = t.Name ++ ".UpdateColumns" ∧ e.table = t.Table.TableName ∧
      ∃ c ∈ cols, c ∉ TColumns F t ∧ e.err = .errorf ("unknown column: " ++ c)) ∧
    ((UpdateColumns F R t s cols).2 = none →
      ∃ m, (UpdateColumns F R t s cols).1 = some m ∧
        m.op = MutationOp.update ∧ m.table = t.Table.TableName ∧
        m.columns = cols ++ TPrimaryKeys F t ∧
        m.values.length = m.columns.length ∧
        List.Forall₂
          (fun c v => ∃ f ∈ t.Fields, F.colname f.Col = c ∧ switchCol F t c = some f ∧
            v = (if f.isCustom then R.conv f.GoType (s f.Name) else s f.Name))
          m.columns m.values) := by
  by_cases hbad : ∃ c ∈ cols, c ∉ TColumns F t
  · have hbad2 : ∃ c ∈ cols ++ TPrimaryKeys F t, c ∉ TColumns F t := by
      obtain ⟨c, hc, hn⟩ := hbad
      exact ⟨c, List.mem_append_left _ hc, hn⟩
    obtain ⟨c, hc, hn, heq⟩ := UpdateColumns_error F R t s cols hbad2
    have hccols : c ∈ cols := by
      rcases List.mem_append.1 hc with h | h
      · exact h
      · exact absurd (hpk c h) hn
    rw [heq]
    refine ⟨⟨fun _ => hbad, fun _ => by simp⟩, ?_, ?_⟩
    · intro e he
      simp only [Option.some.injEq] at he
      subst he
      exact ⟨rfl, rfl, by simp [newErrorWithCode], by simp [newErrorWithCode], rfl, rfl, c,
        hccols, hn, rfl⟩
    · intro h
      simp at h
  · have hall : ∀ c ∈ cols ++ TPrimaryKeys F t, c ∈ TColumns F t := by
      intro c hc
      rcases List.mem_append.1 hc with h | h
      · by_contra hn
        exact hbad ⟨c, h, hn⟩
      · exact hpk c h
    rw [UpdateColumns_ok F R t s cols hall]
    refine ⟨⟨fun h => absurd rfl h, fun h => absurd h hbad⟩, ?_, ?_⟩
    · intro e he
      simp at he
    · intro _
      have hf := values_forall₂ F R t s _ hall
      refine ⟨_, rfl, rfl, rfl, rfl, ?_, ?_⟩
      · simpa [spannerUpdate] using hf.length_eq.symm
      · simpa [spannerUpdate, fieldValue] using hf

/-- Instance of C4 on `Users`: `cols = ["email", "nope"]` is rejected, and for
`cols = ["score", "email"]` the mutation carries the values of `Score`, `Email` and `Id`. -/
theorem UpdateColumns_error_iff_unknown_column_users :
    (∀ c ∈ TPrimaryKeys sampleFuncs usersType, c ∈ TColumns sampleFuncs usersType) ∧
    ((UpdateColumns sampleFuncs sampleRuntime usersType sampleUser ["email", "nope"]).2 ≠ none ↔
      ∃ c ∈ ["email", "nope"], c ∉ TColumns sampleFuncs usersType) ∧
    ((UpdateColumns sampleFuncs sampleRuntime usersType sampleUser ["score", "email"]).2 = none →
      ∃ m, (UpdateColumns sampleFuncs sampleRuntime usersType sampleUser ["score", "email"]).1
          = some m ∧
        m.op = MutationOp.update ∧ m.table = usersType.Table.TableName ∧
        m.columns = ["score", "email"] ++ TPrimaryKeys sampleFuncs usersType ∧
        m.values.length = m.columns.length ∧
        List.Forall₂
          (fun c v => ∃ f ∈ usersType.Fields, sampleFuncs.colname f.Col = c ∧
            switchCol sampleFuncs usersType c = some f ∧
            v = (if f.isCustom then sampleRuntime.conv f.GoType (sampleUser f.Name)
                 else sampleUser f.Name))
          m.columns m.values) ∧
    (UpdateColumns sampleFuncs sampleRuntime usersType sampleUser ["score", "email"]).1.map
        (fun m => (m.columns, m.values))
      = some (["score", "email", "id"],
          [GoValue.int 7, GoValue.str "a@b.com", GoValue.int 1]) :=
  ⟨by decide,
    (UpdateColumns_error_iff_unknown_column sampleFuncs sampleRuntime usersType sampleUser
      ["email", "nope"] (by decide)).1,
    (UpdateColumns_error_iff_unknown_column sampleFuncs sampleRuntime usersType sampleUser
      ["score", "email"] (by decide)).2.2,
    by decide⟩

/-! ## What `operation.go.tpl` emits -/

/-- C10, as the code behaves: for every table `T` the operation template emits `Insert`
and `Delete`; `Update`, `InsertOrUpdate` and `UpdateColumns` sit in the block guarded by
`fieldnames`, so each of them is emitted if and only if `T` has a field that is not a
primary-key field (taking `fieldnames(Fields, short, PrimaryKeyFields)` to be the empty
string exactly when every field of `T` is a primary-key field). -/
theorem operationTpl_mutations_emitted (F : Funcs) (t : GenType)
    (hfn : F.fieldnames t.Fields (F.shortname t.Name ["err", "res", "sqlstr", "db", "YOLog"] [])
        t.PrimaryKeyFields = "" ↔ ∀ f ∈ t.Fields, f ∈ t.PrimaryKeyFields) :
    OpDecl.Insert ∈ operationTpl F t ∧
    OpDecl.Delete ∈ operationTpl F t ∧
    (OpDecl.Update ∈ operationTpl F t ↔ ∃ f ∈ t.Fields, f ∉ t.PrimaryKeyFields) ∧
    (OpDecl.InsertOrUpdate ∈ operationTpl F t ↔ ∃ f ∈ t.Fields, f ∉ t.PrimaryKeyFields) ∧
    (OpDecl.UpdateColumns ∈ operationTpl F t ↔ ∃ f ∈ t.Fields, f ∉ t.PrimaryKeyFields) := by
  have hex : (∃ f ∈ t.Fields, f ∉ t.PrimaryKeyFields) ↔
      ¬ (F.fieldnames t.Fields (F.shortname t.Name ["err", "res", "sqlstr", "db", "YOLog"] [])
        t.PrimaryKeyFields = "") := by
    rw [hfn]
    push_neg
    rfl
  rw [hex]
  by_cases h : F.fieldnames t.Fields
      (F.shortname t.Name ["err", "res", "sqlstr", "db", "YOLog"] []) t.PrimaryKeyFields = ""
  · simp [operationTpl, h]
  · simp [operationTpl, h]

/-- Instance of C10 as the code behaves, on `Users`. -/
theorem operationTpl_mutations_emitted_users :
    (sampleFuncs.fieldnames usersType.Fields
        (sampleFuncs.shortname usersType.Name ["err", "res", "sqlstr", "db", "YOLog"] [])
        usersType.PrimaryKeyFields = "" ↔ ∀ f ∈ usersType.Fields, f ∈ usersType.PrimaryKeyFields) ∧
    OpDecl.Insert ∈ operationTpl sampleFuncs usersType ∧
    OpDecl.Delete ∈ operationTpl sampleFuncs usersType ∧
    (OpDecl.Update ∈ operationTpl sampleFuncs usersType ↔
      ∃ f ∈ usersType.Fields, f ∉ usersType.PrimaryKeyFields) :=
  ⟨by decide,
    (operationTpl_mutations_emitted sampleFuncs usersType (by decide)).1,
    (operationTpl_mutations_emitted sampleFuncs usersType (by decide)).2.1,
    (operationTpl_mutations_emitted sampleFuncs usersType (by decide)).2.2.1⟩

/-- C10 fails as stated: for `Tags`, whose only field is its primary key, `fieldnames`
yields the empty string and the template emits `Insert` and `Delete` only; `FindT`,
`ReadT`, `InsertOrUpdate` and `UpdateColumns` are not emitted. -/
theorem operationTpl_key_only_table :
    (sampleFuncs.fieldnames tagsType.Fields
        (sampleFuncs.shortname tagsType.Name ["err", "res", "sqlstr", "db", "YOLog"] [])
        tagsType.PrimaryKeyFields = "" ↔ ∀ f ∈ tagsType.Fields, f ∈ tagsType.PrimaryKeyFields) ∧
    operationTpl sampleFuncs tagsType = [OpDecl.Insert, OpDecl.Delete] ∧
    OpDecl.FindT ∉ operationTpl sampleFuncs tagsType ∧
    OpDecl.ReadT ∉ operationTpl sampleFuncs tagsType ∧
    OpDecl.InsertOrUpdate ∉ operationTpl sampleFuncs tagsType ∧
    OpDecl.UpdateColumns ∉ operationTpl sampleFuncs tagsType := by
  refine ⟨by decide, by decide, by decide, by decide, by decide, by decide⟩

/-! ## Index lookups: error handling -/

/-- C1: for a unique index, `Find<FuncName>` returns nil and an envelope with code
`NotFound` when the first `Next` reports `iterator.Done`; nil and an envelope with the
code the backend classifier gives for the cause when the first `Next` fails otherwise;
nil and an envelope with code `Internal` when the row is fetched but the decoder fails;
and a struct with a nil error only when fetch and decode both succeed.  Every failure
returns nil together with an envelope naming `Find<FuncName>` and the table of `T`. -/
theorem FindByIdx_unique_outcomes {V K : Type} (F : Funcs) (R : Runtime V) (rc : Materialise V)
    (db : YORODB V K) (idx : GenIndex) (args : Nat → V) (h : idx.Index.IsUnique = true) :
    ((db.Query (findStmt F R idx args)).Next.1 = .error GoError.done →
      FindByIdx F R rc db idx args = FindResult.one (none, some
        { err := GoError.done, method := "Find" ++ idx.FuncName,
          table := idx.Typ.Table.TableName, code := Code.NotFound })) ∧
    (∀ e, (db.Query (findStmt F R idx args)).Next.1 = .error e → e ≠ GoError.done →
      FindByIdx F R rc db idx args = FindResult.one (none, some
        { err := e, method := "Find" ++ idx.FuncName,
          table := idx.Typ.Table.TableName, code := R.ErrCode e })) ∧
    (∀ row e, (db.Query (findStmt F R idx args)).Next.1 = .ok row →
      (newDecoder F R rc idx.Typ (TColumns F idx.Typ) (zeroScratch F R idx.Typ) row).1 = .error e →
      FindByIdx F R rc db idx args = FindResult.one (none, some
        { err := e, method := "Find" ++ idx.FuncName,
          table := idx.Typ.Table.TableName, code := Code.Internal })) ∧
    (∀ row s, (db.Query (findStmt F R idx args)).Next.1 = .ok row →
      (newDecoder F R rc idx.Typ (TColumns F idx.Typ) (zeroScratch F R idx.Typ) row).1 = .ok s →
      FindByIdx F R rc db idx args = FindResult.one (some s, none)) ∧
    (∀ s err, FindByIdx F R rc db idx args = FindResult.one (some s, err) →
      err = none ∧ ∃ row, (db.Query (findStmt F R idx args)).Next.1 = .ok row ∧
        (newDecoder F R rc idx.Typ (TColumns F idx.Typ) (zeroScratch F R idx.Typ) row).1 = .ok s) ∧
    (∀ v e, FindByIdx F R rc db idx args = FindResult.one (v, some e) →
      v = none ∧ e.method = "Find" ++ idx.FuncName ∧ e.table = idx.Typ.Table.TableName) := by
  simp only [FindByIdx, h, if_true, findUnique, newError, newErrorWithCode]
  cases hn : (db.Query (findStmt F R idx args)).Next.1 with
  | error e0 =>
    by_cases hd : e0 = GoError.done
    · subst hd
      simp
    · simp only [hd, if_false]
      refine ⟨?_, ?_, ?_, ?_, ?_, ?_⟩
      · intro h1
        cases h1
        exact absurd rfl hd
      · intro e h1 _
        cases h1
        rfl
      · intro row e h1
        cases h1
      · intro row s h1
        cases h1
      · intro s err h1
        simp at h1
      · intro v e h1
        simp only [FindResult.one.injEq, Prod.mk.injEq, Option.some.injEq] at h1
        obtain ⟨hv, he⟩ := h1
        subst hv he
        exact ⟨rfl, rfl, rfl⟩
  | ok row0 =>
    cases hdec : (newDecoder F R rc idx.Typ (TColumns F idx.Typ) (zeroScratch F R idx.Typ) row0).1 with
    | error e1 =>
      simp only [hdec]
      refine ⟨?_, ?_, ?_, ?_, ?_, ?_⟩
      · intro h1
        cases h1
      · intro e h1 _
        cases h1
      · intro row e h1 h2
        cases h1
        rw [hdec] at h2
        cases h2
        rfl
      · intro row s h1 h2
        cases h1
        rw [hdec] at h2
        cases h2
      · intro s err h1
        simp at h1
      · intro v e h1
        simp only [FindResult.one.injEq, Prod.mk.injEq, Option.some.injEq] at h1
        obtain ⟨hv, he⟩ := h1
        subst hv he
        exact ⟨rfl, rfl, rfl⟩
    | ok s1 =>
      simp only [hdec]
      refine ⟨?_, ?_, ?_, ?_, ?_, ?_⟩
      · intro h1
        cases h1
      · intro e h1 _
        cases h1
      · intro row e h1 h2
        cases h1
        rw [hdec] at h2
        cases h2
      · intro row s h1 h2
        cases h1
        rw [hdec] at h2
        cases h2
        rfl
      · intro s err h1
        simp only [FindResult.one.injEq, Prod.mk.injEq, Option.some.injEq] at h1
        obtain ⟨hv, he⟩ := h1
        subst hv he
        exact ⟨rfl, row0, rfl, hdec⟩
      · intro v e h1
        simp at h1

/-- Instance of C1 on the unique index of `Users` over `email`, queried on an empty table. -/
theorem FindByIdx_unique_outcomes_users :
    usersByEmail.Index.IsUnique = true ∧
    ((sampleDb [] none (.error GoError.done)).Query
        (findStmt sampleFuncs sampleRuntime usersByEmail (fun _ => GoValue.str "a@b.com"))).Next.1
      = .error GoError.done ∧
    FindByIdx sampleFuncs sampleRuntime (rowColumns sampleRuntime) (sampleDb [] none (.error GoError.done))
        usersByEmail (fun _ => GoValue.str "a@b.com")
      = FindResult.one (none, some
        { err := GoError.done, method := "Find" ++ usersByEmail.FuncName,
          table := usersByEmail.Typ.Table.TableName, code := Code.NotFound }) :=
  ⟨rfl, rfl,
    (FindByIdx_unique_outcomes sampleFuncs sampleRuntime (rowColumns sampleRuntime)
      (sampleDb [] none (.error GoError.done)) usersByEmail (fun _ => GoValue.str "a@b.com") rfl).1
      rfl⟩

theorem findLoop_all_decoded {V : Type} (F : Funcs) (R : Runtime V) (rc : Materialise V)
    (idx : GenIndex) (final : Option GoError) (hend : final.getD GoError.done = GoError.done)
    (rows : List (Row V)) (sc : String → V) (acc : List (Struct V))
    (hdec : ∀ r ∈ decodeSeq F R rc idx.Typ (TColumns F idx.Typ) sc rows, ∃ s, r = .ok s) :
    ∃ structs, findLoop F R rc idx final rows sc (some acc) = (some (acc ++ structs), none) ∧
      structs.map Except.ok = decodeSeq F R rc idx.Typ (TColumns F idx.Typ) sc rows := by
  induction rows generalizing sc acc with
  | nil =>
    refine ⟨[], ?_, rfl⟩
    simp [findLoop, hend]
  | cons row rest ih =>
    obtain ⟨s, hs⟩ := hdec (newDecoder F R rc idx.Typ (TColumns F idx.Typ) sc row).1
      (by simp [decodeSeq])
    have hrest : ∀ r ∈ decodeSeq F R rc idx.Typ (TColumns F idx.Typ)
        (newDecoder F R rc idx.Typ (TColumns F idx.Typ) sc row).2 rest, ∃ s, r = .ok s := by
      intro r hr
      exact hdec r (by simp [decodeSeq, hr])
    obtain ⟨structs, hloop, hmap⟩ := ih _ (acc ++ [s]) hrest
    refine ⟨s :: structs, ?_, ?_⟩
    · have hpair : newDecoder F R rc idx.Typ (TColumns F idx.Typ) sc row
          = (.ok s, (newDecoder F R rc idx.Typ (TColumns F idx.Typ) sc row).2) := by
        rw [← hs]
      simp only [findLoop]
      rw [hpair]
      simp only [Slice.append, Option.getD_some]
      rw [hloop]
      simp
    · simp [decodeSeq, hs, hmap]

/-- C7 fails on the keyset reads: when the stream of the backend fails with
`DeadlineExceeded`, `ReadT` and `Read<FuncName>` return nil with an envelope whose code is
`Internal`, so `Timeout()` is false, whereas `FindT` and `Find<FuncName>` on the same failure
carry the code of the backend and report `Timeout()` as true. -/
theorem Read_reports_backend_failure_as_internal :
    sampleRuntime.ErrCode deadlineErr = Code.DeadlineExceeded ∧
    ReadT sampleFuncs sampleRuntime (rowColumns sampleRuntime)
        (sampleDb [] (some deadlineErr) (.error deadlineErr)) usersType ()
      = (none, some { err := deadlineErr, method := "ReadUsers", table := "Users",
                      code := Code.Internal }) ∧
    ReadByIdx sampleFuncs sampleRuntime (rowColumns sampleRuntime)
        (sampleDb [] (some deadlineErr) (.error deadlineErr)) usersByEmailStatus ()
      = (none, some { err := deadlineErr, method := "ReadUsersByEmailStatus", table := "Users",
                      code := Code.Internal }) ∧
    yoError.Timeout { err := deadlineErr, method := "ReadUsers", table := "Users",
                      code := Code.Internal } = false ∧
    FindByIdx sampleFuncs sampleRuntime (rowColumns sampleRuntime)
        (sampleDb [] (some deadlineErr) (.error deadlineErr)) usersByEmailStatus sampleArgs
      = FindResult.many (none, some { err := deadlineErr, method := "FindUsersByEmailStatus",
                                      table := "Users", code := Code.DeadlineExceeded }) ∧
    FindT sampleFuncs sampleRuntime (rowColumns sampleRuntime)
        (sampleDb [] (some deadlineErr) (.error deadlineErr)) usersType [GoValue.int 1]
      = (none, some { err := deadlineErr, method := "FindUsers", table := "Users",
                      code := Code.DeadlineExceeded }) ∧
    yoError.Timeout { err := deadlineErr, method := "FindUsers", table := "Users",
                      code := Code.DeadlineExceeded } = true := by
  refine ⟨rfl, ?_, ?_, rfl, ?_, ?_, rfl⟩
  · rfl
  · rfl
  · rfl
  · rfl

/-! ## The predicate of an index lookup -/

theorem fillConds_length {V : Type} (F : Funcs) (R : Runtime V) (args : Nat → V)
    (fs : List Field) (i : Nat) (conds : List String) :
    (fillConds F R args i fs conds).length = conds.length := by
  induction fs generalizing i conds with
  | nil => rfl
  | cons f rest ih => simp [fillConds, ih]

theorem fillConds_getElem?_lt {V : Type} (F : Funcs) (R : Runtime V) (args : Nat → V)
    (fs : List Field) (i : Nat) (conds : List String) (k : Nat) (hk : k < i) :
    (fillConds F R args i fs conds)[k]? = conds[k]? := by
  induction fs generalizing i conds with
  | nil => rfl
  | cons f rest ih =>
    simp only [fillConds]
    rw [ih (i + 1) _ (Nat.lt_succ_of_lt hk)]
    exact List.getElem?_set_ne (Nat.ne_of_gt hk)

theorem fillConds_getElem? {V : Type} (F : Funcs) (R : Runtime V) (args : Nat → V)
    (fs : List Field) (i : Nat) (conds : List String) (j : Nat) (f : Field)
    (hf : fs[j]? = some f) (hlen : i + j < conds.length) :
    (fillConds F R args i fs conds)[i + j]? = some (condClause F R (i + j) f (args (i + j))) := by
  induction fs generalizing i conds j with
  | nil => simp at hf
  | cons g rest ih =>
    cases j with
    | zero =>
      simp only [List.getElem?_cons_zero, Option.some.injEq] at hf
      subst hf
      simp only [fillConds, Nat.add_zero]
      rw [fillConds_getElem?_lt F R args rest (i + 1) _ i (Nat.lt_succ_self i)]
      exact List.getElem?_set_self (by simpa using hlen)
    | succ j =>
      simp only [List.getElem?_cons_succ] at hf
      simp only [fillConds]
      have h2 : i + 1 + j < (conds.set i (condClause F R i g (args i))).length := by
        simp only [List.length_set]
        omega
      have := ih (i + 1) _ j hf h2
      have hij : i + (j + 1) = i + 1 + j := by omega
      rw [hij]
      exact this

/-- C8: for an index with at least one nullable key field (`.NullableFields` being the key
fields whose column is nullable), the statement `Find<FuncName>` executes has as predicate
the `" AND "`-join of one clause per key field, in key-field order: clause `i` is
`<column i> = @param<i>` for a non-nullable column; for a nullable column it is
`<column i> IS NULL` when the argument supplied for it is null and `<column i> = @param<i>`
otherwise. -/
theorem FindByIdx_where_clauses {V K : Type} (F : Funcs) (R : Runtime V) (idx : GenIndex)
    (args : Nat → V)
    (hN : idx.NullableFields = idx.Fields.filter (fun f => !f.Col.NotNull))
    (h : ∃ f ∈ idx.Fields, f.Col.NotNull = false) :
    ∃ clauses : List String,
      (findStmt F R idx args).SQL
        = selectFrom F idx ++ ("WHERE " ++ String.intercalate " AND " clauses) ∧
      clauses.length = idx.Fields.length ∧
      (∀ (i : Nat) (f : Field), idx.Fields[i]? = some f →
        clauses[i]? = some
          (if f.Col.NotNull then F.escapedcolname f.Col ++ " = @param" ++ toString i
           else if R.isNull (args i) then F.escapedcolname f.Col ++ " IS NULL"
           else F.escapedcolname f.Col ++ " = @param" ++ toString i)) ∧
      (∀ (rc : Materialise V) (db : YORODB V K),
        FindByIdx F R rc db idx args
          = if idx.Index.IsUnique then
              FindResult.one (findUnique F R rc idx (db.Query (findStmt F R idx args)))
            else
              FindResult.many (findMany F R rc idx (db.Query (findStmt F R idx args)))) := by
  have hne : idx.NullableFields.isEmpty = false := by
    obtain ⟨f, hf, hnull⟩ := h
    have hmem : f ∈ idx.NullableFields := by
      rw [hN]
      simp [List.mem_filter, hf, hnull]
    cases hl : idx.NullableFields with
    | nil => rw [hl] at hmem; cases hmem
    | cons a l => rfl
  refine ⟨fillConds F R args 0 idx.Fields (List.replicate (columncount idx.Fields) ""),
    ?_, ?_, ?_, ?_⟩
  · simp [findStmt, sqlstr, hne]
  · simp [fillConds_length, columncount]
  · intro i f hf
    have hi : i < idx.Fields.length := by
      rcases List.getElem?_eq_some_iff.1 hf with ⟨hi, _⟩
      exact hi
    have := fillConds_getElem? F R args idx.Fields 0
      (List.replicate (columncount idx.Fields) "") i f hf (by simpa [columncount] using hi)
    simpa [condClause, nullcheck] using this
  · intro rc db
    rfl

/-- Instance of C8 on the index of `Users` over `(email, status)` with no status supplied. -/
theorem FindByIdx_where_clauses_users :
    usersByEmailStatus.NullableFields
      = usersByEmailStatus.Fields.filter (fun f => !f.Col.NotNull) ∧
    (∃ f ∈ usersByEmailStatus.Fields, f.Col.NotNull = false) ∧
    (findStmt sampleFuncs sampleRuntime usersByEmailStatus sampleArgs).SQL
      = "SELECT `id`, `email`, `status`, `score` FROM Users@\x7bFORCE_INDEX=UsersByEmailStatus\x7d WHERE `email` = @param0 AND `status` IS NULL" ∧
    ∃ clauses : List String,
      (findStmt sampleFuncs sampleRuntime usersByEmailStatus sampleArgs).SQL
        = selectFrom sampleFuncs usersByEmailStatus ++
            ("WHERE " ++ String.intercalate " AND " clauses) ∧
      clauses.length = usersByEmailStatus.Fields.length :=
  ⟨by decide, by decide, by decide,
    (@FindByIdx_where_clauses GoValue Unit sampleFuncs sampleRuntime usersByEmailStatus sampleArgs
      (by decide) (by decide)).imp (fun _ hc => ⟨hc.1, hc.2.1⟩)⟩

/-! ## The decoder: targets and unknown columns -/

theorem lookup_map_pair {α β : Type} (k : α → String) (v : α → β) (l : List α) (c : String) :
    (l.map (fun a => (k a, v a))).lookup c = (l.find? (fun a => k a == c)).map v := by
  induction l with
  | nil => rfl
  | cons a rest ih =>
    simp only [List.map_cons, List.lookup_cons, List.find?_cons]
    by_cases hk : k a = c
    · simp [hk]
    · have h1 : (c == k a) = false := by
        simp only [beq_eq_false_iff_ne, ne_eq]
        exact fun h => hk h.symm
      have h2 : (k a == c) = false := by simpa using hk
      simp only [h1, h2, ih]

theorem customPtrs_lookup (F : Funcs) (t : GenType) (c : String) :
    (customPtrs F t).lookup c
      = (t.Fields.find? (fun f => f.isCustom && F.colname f.Col == c)).map
          (fun f => Ptr.scratch (F.customtypeparam f.Name)) := by
  unfold customPtrs
  rw [lookup_map_pair (fun f : Field => F.colname f.Col)
    (fun f : Field => Ptr.scratch (F.customtypeparam f.Name))]
  rw [List.find?_filter]
  congr 2
  funext f
  by_cases hc : F.colname f.Col = c <;> simp [hc]

theorem colTarget_none_of_not_mem {F : Funcs} {t : GenType} {c : String}
    (h : c ∉ TColumns F t) :
    (customPtrs F t).lookup c = none ∧ switchCol F t c = none := by
  refine ⟨?_, (switchCol_eq_none_iff F t c).2 h⟩
  rw [customPtrs_lookup]
  have : t.Fields.find? (fun f => f.isCustom && F.colname f.Col == c) = none := by
    rw [List.find?_eq_none]
    intro f hf
    have hne : F.colname f.Col ≠ c := by
      intro heq
      exact h (by rw [← heq]; exact List.mem_map_of_mem (fun f => F.colname f.Col) hf)
    simp [hne]
  rw [this]
  rfl

theorem colTarget_of_mem {F : Funcs} {t : GenType} {c : String} (h : c ∈ TColumns F t) :
    ∃ p f, colTarget F t c = some p ∧ f ∈ t.Fields ∧ F.colname f.Col = c ∧
      p = (if f.isCustom then Ptr.scratch (F.customtypeparam f.Name) else Ptr.field f.Name) := by
  unfold colTarget
  rw [customPtrs_lookup]
  cases hfind : t.Fields.find? (fun f => f.isCustom && F.colname f.Col == c) with
  | some g =>
    have hg := List.find?_some hfind
    simp only [Bool.and_eq_true, beq_iff_eq] at hg
    exact ⟨_, g, rfl, List.mem_of_find?_eq_some hfind, hg.2, by simp [hg.1]⟩
  | none =>
    obtain ⟨f, hf⟩ := switchCol_of_mem h
    obtain ⟨hmem, hcol⟩ := switchCol_some hf
    have hnc : f.isCustom = false := by
      have := List.find?_eq_none.1 hfind f hmem
      simpa [hcol] using this
    exact ⟨Ptr.field f.Name, f, by simp [hf], hmem, hcol, by simp [hnc]⟩

theorem columnsToPtrsLoop_ok (F : Funcs) (t : GenType) (cols : List String) (ret : List Ptr)
    (h : ∀ c ∈ cols, c ∈ TColumns F t) :
    columnsToPtrsLoop F t (customPtrs F t) ret cols
      = .ok (ret ++ cols.filterMap (colTarget F t)) := by
  induction cols generalizing ret with
  | nil => simp [columnsToPtrsLoop]
  | cons c rest ih =>
    have hrest : ∀ d ∈ rest, d ∈ TColumns F t := fun d hd => h d (List.mem_cons_of_mem c hd)
    obtain ⟨p, f, hp, -, -, -⟩ := colTarget_of_mem (h c (List.mem_cons_self c rest))
    have hp2 := hp
    unfold colTarget at hp2
    cases hl : (customPtrs F t).lookup c with
    | some val =>
      rw [hl] at hp2
      simp only [Option.some.injEq] at hp2
      subst hp2
      simp [columnsToPtrsLoop, hl, ih _ hrest, hp]
    | none =>
      rw [hl] at hp2
      cases hs : switchCol F t c with
      | none => simp [hs] at hp2
      | some g =>
        simp only [hs, Option.map_some', Option.some.injEq] at hp2
        subst hp2
        simp [columnsToPtrsLoop, hl, hs, ih _ hrest, hp]

theorem columnsToPtrsLoop_error (F : Funcs) (t : GenType) (cols : List String) (ret : List Ptr)
    (h : ∃ c ∈ cols, c ∉ TColumns F t) :
    ∃ c ∈ cols, c ∉ TColumns F t ∧
      columnsToPtrsLoop F t (customPtrs F t) ret cols
        = .error (.errorf ("unknown column: " ++ c)) := by
  induction cols generalizing ret with
  | nil => simp at h
  | cons c rest ih =>
    by_cases hc : c ∈ TColumns F t
    · obtain ⟨d, hd, hdn⟩ := h
      have hdrest : d ∈ rest := by
        rcases List.mem_cons.1 hd with rfl | hd
        · exact absurd hc hdn
        · exact hd
      have hstep : ∀ ret, ∃ p, columnsToPtrsLoop F t (customPtrs F t) ret (c :: rest)
          = columnsToPtrsLoop F t (customPtrs F t) (ret ++ [p]) rest := by
        intro ret
        cases hl : (customPtrs F t).lookup c with
        | some val => exact ⟨val, by simp [columnsToPtrsLoop, hl]⟩
        | none =>
          obtain ⟨g, hg⟩ := switchCol_of_mem hc
          exact ⟨Ptr.field g.Name, by simp [columnsToPtrsLoop, hl, hg]⟩
      obtain ⟨p, hp⟩ := hstep ret
      obtain ⟨e, he, hen, heq⟩ := ih (ret ++ [p]) ⟨d, hdrest, hdn⟩
      exact ⟨e, List.mem_cons_of_mem c he, hen, by rw [hp, heq]⟩
    · obtain ⟨hl, hs⟩ := colTarget_none_of_not_mem hc
      exact ⟨c, List.mem_cons_self c rest, hc, by simp [columnsToPtrsLoop, hl, hs]⟩

theorem targets_forall₂ (F : Funcs) (t : GenType) (cols : List String)
    (h : ∀ c ∈ cols, c ∈ TColumns F t) :
    List.Forall₂
      (fun c p => ∃ f ∈ t.Fields, F.colname f.Col = c ∧
        p = (if f.isCustom then Ptr.scratch (F.customtypeparam f.Name) else Ptr.field f.Name))
      cols (cols.filterMap (colTarget F t)) := by
  induction cols with
  | nil => simp
  | cons c rest ih =>
    have hrest : ∀ d ∈ rest, d ∈ TColumns F t := fun d hd => h d (List.mem_cons_of_mem c hd)
    obtain ⟨p, f, hp, hf, hcol, hpf⟩ := colTarget_of_mem (h c (List.mem_cons_self c rest))
    simp only [List.filterMap_cons, hp]
    exact List.Forall₂.cons ⟨f, hf, hcol, hpf⟩ (ih hrest)

theorem newDecoder_unknown {V : Type} (F : Funcs) (R : Runtime V) (t : GenType)
    (cols : List String) (h : ∃ c ∈ cols, c ∉ TColumns F t) :
    ∃ c ∈ cols, c ∉ TColumns F t ∧ ∀ (rc : Materialise V) (sc : String → V) (row : Row V),
      newDecoder F R rc t cols sc row = (.error (.errorf ("unknown column: " ++ c)), sc) := by
  obtain ⟨c, hc, hn, heq⟩ := columnsToPtrsLoop_error F t cols [] h
  refine ⟨c, hc, hn, ?_⟩
  intro rc sc row
  simp only [newDecoder, columnsToPtrs, heq]

theorem newDecoder_known {V : Type} (F : Funcs) (R : Runtime V) (rc : Materialise V)
    (t : GenType) (cols : List String) (sc : String → V) (row : Row V)
    (h : ∀ c ∈ cols, c ∈ TColumns F t) :
    newDecoder F R rc t cols sc row
      = match rc row (cols.filterMap (colTarget F t))
          { fields := zeroStruct F R t, scratch := sc } with
        | (m, some err) => (.error err, m.scratch)
        | (m, none) => (.ok (assignCustom F R t.Fields m.fields m.scratch), m.scratch) := by
  simp only [newDecoder, columnsToPtrs, columnsToPtrsLoop_ok F t cols [] h, List.nil_append]

/-- C5: the decoder returned by `newT_Decoder(cols)` fails on every row with an
unknown-column error exactly when `cols` holds a name that is not a column of `T`; the
failure does not depend on the materialiser and leaves the scratch variables untouched,
so it happens before any materialisation.  When every name in `cols` is a column,
`columnsToPtrs` yields as many targets as `cols` has names, the i-th being the target of
the column `cols[i]`: the address of its struct field, or the scratch variable of the
decoder when the column has a custom type. -/
theorem newDecoder_unknown_column_iff {V : Type} (F : Funcs) (R : Runtime V) (t : GenType)
    (cols : List String) :
    ((∃ c ∈ cols, c ∉ TColumns F t) ↔
      ∀ (sc : String → V) (row : Row V), ∃ c,
        (newDecoder F R (rowColumns R) t cols sc row).1
          = .error (.errorf ("unknown column: " ++ c))) ∧
    ((∃ c ∈ cols, c ∉ TColumns F t) →
      ∃ c ∈ cols, c ∉ TColumns F t ∧
        ∀ (rc : Materialise V) (sc : String → V) (row : Row V),
          newDecoder F R rc t cols sc row = (.error (.errorf ("unknown column: " ++ c)), sc)) ∧
    ((∀ c ∈ cols, c ∈ TColumns F t) →
      ∃ ptrs, columnsToPtrs F t cols (customPtrs F t) = .ok ptrs ∧
        ptrs.length = cols.length ∧
        List.Forall₂
          (fun c p => ∃ f ∈ t.Fields, F.colname f.Col = c ∧
            p = (if f.isCustom then Ptr.scratch (F.customtypeparam f.Name)
                 else Ptr.field f.Name))
          cols ptrs) := by
  refine ⟨⟨?_, ?_⟩, newDecoder_unknown F R t cols, ?_⟩
  · intro hbad sc row
    obtain ⟨c, -, -, hc⟩ := @newDecoder_unknown V F R t cols hbad
    exact ⟨c, by rw [hc (rowColumns R) sc row]⟩
  · intro hall
    by_contra hgood
    have hvalid : ∀ c ∈ cols, c ∈ TColumns F t := by
      intro c hc
      by_contra hn
      exact hgood ⟨c, hc, hn⟩
    obtain ⟨c, hc⟩ := hall (fun _ => R.zero "") []
    rw [newDecoder_known F R (rowColumns R) t cols _ _ hvalid] at hc
    have hlen : (cols.filterMap (colTarget F t)).length = cols.length :=
      (targets_forall₂ F t cols hvalid).length_eq.symm
    cases cols with
    | nil => simp [rowColumns, columnsLoop] at hc
    | cons d rest =>
      simp only [List.length_cons] at hlen
      simp [rowColumns, hlen, errNumOfColValue] at hc
  · intro hvalid
    refine ⟨cols.filterMap (colTarget F t), ?_, ?_, targets_forall₂ F t cols hvalid⟩
    · simp [columnsToPtrs, columnsToPtrsLoop_ok F t cols [] hvalid]
    · exact (targets_forall₂ F t cols hvalid).length_eq.symm

/-! ## The decoder: round trip through the column dispatch -/

theorem load_store_self {V : Type} (m : Mem V) (p : Ptr) (v : V) : (m.store p v).load p = v := by
  cases p <;> simp [Mem.store, Mem.load]

theorem load_store_ne {V : Type} (m : Mem V) (p q : Ptr) (v : V) (h : q ≠ p) :
    (m.store p v).load q = m.load q := by
  cases p <;> cases q <;> simp [Mem.store, Mem.load]
  · rename_i a b
    have : b ≠ a := fun hab => h (by rw [hab])
    simp [Function.update, this]
  · rename_i a b
    have : b ≠ a := fun hab => h (by rw [hab])
    simp [Function.update, this]

theorem load_foldl_store_not_mem {V : Type} (ws : List (Ptr × V)) (m : Mem V) (p : Ptr)
    (h : ∀ w ∈ ws, w.1 ≠ p) :
    (ws.foldl (fun m pv => m.store pv.1 pv.2) m).load p = m.load p := by
  induction ws generalizing m with
  | nil => rfl
  | cons w rest ih =>
    simp only [List.foldl_cons]
    rw [ih _ (fun w1 hw1 => h w1 (List.mem_cons_of_mem w hw1))]
    exact load_store_ne m w.1 p w.2 (fun hp => h w (List.mem_cons_self w rest) hp.symm)

theorem load_foldl_store_mem {V : Type} (ws : List (Ptr × V)) (m : Mem V) (p : Ptr) (v : V)
    (hcons : ∀ w ∈ ws, w.1 = p → w.2 = v) (hmem : ∃ w ∈ ws, w.1 = p) :
    (ws.foldl (fun m pv => m.store pv.1 pv.2) m).load p = v := by
  induction ws generalizing m with
  | nil => simp at hmem
  | cons w rest ih =>
    simp only [List.foldl_cons]
    by_cases hr : ∃ w1 ∈ rest, w1.1 = p
    · exact ih _ (fun w1 hw1 => hcons w1 (List.mem_cons_of_mem w hw1)) hr
    · have hnot : ∀ w1 ∈ rest, w1.1 ≠ p := fun w1 hw1 hp => hr ⟨w1, hw1, hp⟩
      rw [load_foldl_store_not_mem rest _ p hnot]
      obtain ⟨w1, hw1, hp⟩ := hmem
      rcases List.mem_cons.1 hw1 with rfl | hw1
      · rw [← hcons w1 (List.mem_cons_self w1 rest) hp, ← hp]
        exact load_store_self m w1.1 w1.2
      · exact absurd hp (hnot w1 hw1)

theorem find?_of_nodup_map {α : Type} (g : α → String) (l : List α) (a : α)
    (hnd : (l.map g).Nodup) (ha : a ∈ l) : l.find? (fun x => g x == g a) = some a := by
  induction l with
  | nil => cases ha
  | cons b rest ih =>
    by_cases hb : g b = g a
    · have : b = a :=
        List.inj_on_of_nodup_map hnd (List.mem_cons_self b rest) ha hb
      subst this
      simp
    · have ha2 : a ∈ rest := by
        rcases List.mem_cons.1 ha with rfl | h
        · exact absurd rfl hb
        · exact h
      have hnd2 : (rest.map g).Nodup := by
        simp only [List.map_cons, List.nodup_cons] at hnd
        exact hnd.2
      simp [List.find?_cons, hb, ih hnd2 ha2]

theorem switchCol_of_field {F : Funcs} {t : GenType} {f : Field}
    (hnd : (t.Fields.map (fun f => F.colname f.Col)).Nodup) (hf : f ∈ t.Fields) :
    switchCol F t (F.colname f.Col) = some f :=
  find?_of_nodup_map (fun g : Field => F.colname g.Col) t.Fields f hnd hf

theorem fieldTarget_inj {F : Funcs} {t : GenType} (hwf : t.WellFormed F) {f g : Field}
    (hf : f ∈ t.Fields) (hg : g ∈ t.Fields) (h : fieldTarget F f = fieldTarget F g) : f = g := by
  obtain ⟨-, hname, hscratch⟩ := hwf
  unfold fieldTarget at h
  by_cases hcf : f.isCustom = true <;> by_cases hcg : g.isCustom = true
  · simp only [hcf, hcg, if_true, Ptr.scratch.injEq] at h
    exact List.inj_on_of_nodup_map hscratch (List.mem_filter.2 ⟨hf, hcf⟩)
      (List.mem_filter.2 ⟨hg, hcg⟩) h
  · simp [hcf, hcg] at h
  · simp [hcf, hcg] at h
  · simp only [Bool.not_eq_true] at hcf hcg
    simp only [hcf, hcg, Bool.false_eq_true, if_false, Ptr.field.injEq] at h
    exact List.inj_on_of_nodup_map hname hf hg h

theorem colTarget_eq {F : Funcs} {t : GenType}
    (hnd : (t.Fields.map (fun f => F.colname f.Col)).Nodup) {c : String} {f : Field}
    (hs : switchCol F t c = some f) : colTarget F t c = some (fieldTarget F f) := by
  obtain ⟨hf, hcol⟩ := switchCol_some hs
  have hc : c ∈ TColumns F t := by
    rw [← hcol]
    exact List.mem_map_of_mem (fun f => F.colname f.Col) hf
  obtain ⟨p, g, hp, hg, hgcol, hpg⟩ := colTarget_of_mem hc
  have hfg : g = f := List.inj_on_of_nodup_map hnd hg hf (by rw [hgcol, hcol])
  subst hfg
  rw [hp, hpg]
  rfl

/-- The writes `row.Columns` performs when the row holds the values of `columnsToValues`. -/
theorem zip_targets_values {V : Type} (F : Funcs) (R : Runtime V) (t : GenType) (s : Struct V)
    (hnd : (t.Fields.map (fun f => F.colname f.Col)).Nodup)
    (cols : List String) (h : ∀ c ∈ cols, c ∈ TColumns F t) :
    (cols.filterMap (colTarget F t)).zip
        (cols.filterMap (fun c => (switchCol F t c).map (fieldValue R s)))
      = cols.filterMap
          (fun c => (switchCol F t c).map (fun f => (fieldTarget F f, fieldValue R s f))) := by
  induction cols with
  | nil => rfl
  | cons c rest ih =>
    have hrest : ∀ d ∈ rest, d ∈ TColumns F t := fun d hd => h d (List.mem_cons_of_mem c hd)
    obtain ⟨f, hf⟩ := switchCol_of_mem (h c (List.mem_cons_self c rest))
    simp only [List.filterMap_cons, hf, colTarget_eq hnd hf, Option.map_some', List.zip_cons_cons,
      ih hrest]

theorem assignCustom_not_mem {V : Type} (F : Funcs) (R : Runtime V) (fields : List Field)
    (s : Struct V) (sc : String → V) (n : String) (h : ∀ f ∈ fields, f.Name ≠ n) :
    assignCustom F R fields s sc n = s n := by
  induction fields generalizing s with
  | nil => rfl
  | cons g rest ih =>
    simp only [assignCustom, List.foldl_cons]
    have := ih (if g.isCustom then
        Function.update s g.Name (R.conv (F.retype g.CustomType) (sc (F.customtypeparam g.Name)))
      else s) (fun f hf => h f (List.mem_cons_of_mem g hf))
    simp only [assignCustom] at this
    rw [this]
    have hg : n ≠ g.Name := fun hn => h g (List.mem_cons_self g rest) hn.symm
    by_cases hc : g.isCustom = true
    · simp [hc, Function.update, hg]
    · simp [hc]

theorem assignCustom_mem {V : Type} (F : Funcs) (R : Runtime V) (fields : List Field)
    (s : Struct V) (sc : String → V) (f : Field)
    (hnd : (fields.map (fun f => f.Name)).Nodup) (hf : f ∈ fields) :
    assignCustom F R fields s sc f.Name
      = if f.isCustom then R.conv (F.retype f.CustomType) (sc (F.customtypeparam f.Name))
        else s f.Name := by
  induction fields generalizing s with
  | nil => cases hf
  | cons g rest ih =>
    simp only [List.map_cons, List.nodup_cons, List.mem_map, not_exists, not_and] at hnd
    have hstep : assignCustom F R (g :: rest) s sc
        = assignCustom F R rest (if g.isCustom then
            Function.update s g.Name
              (R.conv (F.retype g.CustomType) (sc (F.customtypeparam g.Name)))
          else s) sc := by
      simp only [assignCustom, List.foldl_cons]
    rw [hstep]
    rcases List.mem_cons.1 hf with rfl | hf2
    · rw [assignCustom_not_mem F R rest _ sc f.Name (fun x hx hxn => hnd.1 x hx hxn)]
      by_cases hc : f.isCustom = true
      · simp [hc, Function.update]
      · simp [hc]
    · rw [ih _ hnd.2 hf2]
      have hne : f.Name ≠ g.Name := fun hn => hnd.1 f hf2 hn
      by_cases hc : g.isCustom = true
      · simp [hc, Function.update, hne]
      · simp [hc]

theorem zeroStruct_field {V : Type} (F : Funcs) (R : Runtime V) (t : GenType) (f : Field)
    (hnd : (t.Fields.map (fun f => f.Name)).Nodup) (hf : f ∈ t.Fields) :
    zeroStruct F R t f.Name = R.zero (fieldGoType F f) := by
  unfold zeroStruct
  rw [find?_of_nodup_map (fun g : Field => g.Name) t.Fields f hnd hf]

theorem zeroScratch_field {V : Type} (F : Funcs) (R : Runtime V) (t : GenType) (f : Field)
    (hnd : ((t.Fields.filter Field.isCustom).map (fun f => F.customtypeparam f.Name)).Nodup)
    (hf : f ∈ t.Fields) (hc : f.isCustom = true) :
    zeroScratch F R t (F.customtypeparam f.Name) = R.zero f.GoType := by
  unfold zeroScratch
  have h1 : t.Fields.find? (fun g => g.isCustom && F.customtypeparam g.Name == F.customtypeparam f.Name)
      = (t.Fields.filter Field.isCustom).find?
          (fun g => F.customtypeparam g.Name == F.customtypeparam f.Name) := by
    rw [List.find?_filter]
    congr 1
    funext g
    by_cases hg : g.isCustom = true <;>
      by_cases hn : F.customtypeparam g.Name = F.customtypeparam f.Name <;> simp [hg, hn]
  rw [h1, find?_of_nodup_map (fun g : Field => F.customtypeparam g.Name) _ f hnd
    (List.mem_filter.2 ⟨hf, hc⟩)]

theorem load_after_columns {V : Type} (F : Funcs) (R : Runtime V) (t : GenType) (s : Struct V)
    (hwf : t.WellFormed F) (cols : List String) (m0 : Mem V) (f : Field) (hf : f ∈ t.Fields) :
    ((cols.filterMap
        (fun c => (switchCol F t c).map (fun g => (fieldTarget F g, fieldValue R s g)))).foldl
      (fun m pv => m.store pv.1 pv.2) m0).load (fieldTarget F f)
      = if F.colname f.Col ∈ cols then fieldValue R s f else m0.load (fieldTarget F f) := by
  have hsrc : ∀ w ∈ cols.filterMap
      (fun c => (switchCol F t c).map (fun g => (fieldTarget F g, fieldValue R s g))),
      ∃ g ∈ t.Fields, F.colname g.Col ∈ cols ∧ w = (fieldTarget F g, fieldValue R s g) := by
    intro w hw
    obtain ⟨c, hc, hcw⟩ := List.mem_filterMap.1 hw
    cases hs : switchCol F t c with
    | none => simp [hs] at hcw
    | some g =>
      obtain ⟨hg, hgc⟩ := switchCol_some hs
      simp only [hs, Option.map_some', Option.some.injEq] at hcw
      exact ⟨g, hg, by rw [hgc]; exact hc, hcw.symm⟩
  by_cases hin : F.colname f.Col ∈ cols
  · simp only [hin, if_true]
    apply load_foldl_store_mem
    · intro w hw hp
      obtain ⟨g, hg, -, rfl⟩ := hsrc w hw
      have : g = f := fieldTarget_inj hwf hg hf hp
      rw [this]
    · refine ⟨(fieldTarget F f, fieldValue R s f), ?_, rfl⟩
      refine List.mem_filterMap.2 ⟨F.colname f.Col, hin, ?_⟩
      rw [switchCol_of_field hwf.1 hf]
      rfl
  · simp only [hin, if_false]
    apply load_foldl_store_not_mem
    intro w hw hp
    obtain ⟨g, hg, hgin, rfl⟩ := hsrc w hw
    have : g = f := fieldTarget_inj hwf hg hf hp
    rw [this] at hgin
    exact hin hgin

theorem columnsLoop_of_decoded {V : Type} (R : Runtime V) (ws : List (Ptr × V)) (m : Mem V)
    (h : ∀ w ∈ ws, R.decodeValue w.1 w.2 = .ok w.2) :
    columnsLoop R ws m = (ws.foldl (fun m pv => m.store pv.1 pv.2) m, none) := by
  induction ws generalizing m with
  | nil => rfl
  | cons w rest ih =>
    obtain ⟨p, v⟩ := w
    have hw : R.decodeValue p v = .ok v := h (p, v) (List.mem_cons_self _ rest)
    simp only [columnsLoop, hw, List.foldl_cons]
    exact ih _ (fun w1 hw1 => h w1 (List.mem_cons_of_mem _ hw1))

theorem writes_source {V : Type} (F : Funcs) (R : Runtime V) (t : GenType) (s : Struct V)
    (cols : List String) :
    ∀ w ∈ cols.filterMap
        (fun c => (switchCol F t c).map (fun g => (fieldTarget F g, fieldValue R s g))),
      ∃ g ∈ t.Fields, F.colname g.Col ∈ cols ∧ w = (fieldTarget F g, fieldValue R s g) := by
  intro w hw
  obtain ⟨c, hc, hcw⟩ := List.mem_filterMap.1 hw
  cases hs : switchCol F t c with
  | none => simp [hs] at hcw
  | some g =>
    obtain ⟨hg, hgc⟩ := switchCol_some hs
    simp only [hs, Option.map_some', Option.some.injEq] at hcw
    exact ⟨g, hg, by rw [hgc]; exact hc, hcw.symm⟩

/-- C6, as the code behaves: for a type whose emitted code compiles, a struct `s` and a
list `cols` of column names of `T`, assume that for every column in `cols` the client
decodes the value `columnsToValues` hands over back to that same value, and that for every
custom-type column in `cols` the conversion to the custom type undoes the conversion to
the storage primitive on the value of `s`.  Then the decoder `newT_Decoder(cols)`, freshly
built, applied to the row holding `s.columnsToValues(cols)` succeeds and returns a struct
that agrees with `s` on every field whose column is in `cols`; a field left out of `cols`
holds the zero value of its type when it has no custom type, and the conversion of the
zero storage primitive when it has one (which is the zero value of the field whenever the
conversion sends zero to zero). -/
theorem decode_encode_round_trip {V : Type} (F : Funcs) (R : Runtime V) (t : GenType)
    (s : Struct V) (cols : List String)
    (hwf : t.WellFormed F)
    (hcols : ∀ c ∈ cols, c ∈ TColumns F t)
    (hstore : ∀ f ∈ t.Fields, F.colname f.Col ∈ cols →
      R.decodeValue (fieldTarget F f) (fieldValue R s f) = .ok (fieldValue R s f))
    (hrt : ∀ f ∈ t.Fields, f.isCustom = true → F.colname f.Col ∈ cols →
      R.conv (F.retype f.CustomType) (R.conv f.GoType (s f.Name)) = s f.Name) :
    ∃ row s1, columnsToValues F R t s cols = .ok row ∧
      row.length = cols.length ∧
      (newDecoder F R (rowColumns R) t cols (zeroScratch F R t) row).1 = .ok s1 ∧
      (∀ f ∈ t.Fields,
        s1 f.Name =
          if F.colname f.Col ∈ cols then s f.Name
          else if f.isCustom then R.conv (F.retype f.CustomType) (R.zero f.GoType)
          else R.zero (fieldGoType F f)) ∧
      ((∀ f ∈ t.Fields, f.isCustom = true → F.colname f.Col ∉ cols →
          R.conv (F.retype f.CustomType) (R.zero f.GoType) = R.zero (fieldGoType F f)) →
        ∀ f ∈ t.Fields,
          s1 f.Name = if F.colname f.Col ∈ cols then s f.Name else R.zero (fieldGoType F f)) := by
  have hlenp : (cols.filterMap (colTarget F t)).length = cols.length :=
    (targets_forall₂ F t cols hcols).length_eq.symm
  have hlenv : (cols.filterMap (fun c => (switchCol F t c).map (fieldValue R s))).length
      = cols.length := (values_forall₂ F R t s cols hcols).length_eq.symm
  have hmain : ∀ f ∈ t.Fields,
      assignCustom F R t.Fields
        ((cols.filterMap
            (fun c => (switchCol F t c).map (fun g => (fieldTarget F g, fieldValue R s g)))).foldl
          (fun (m : Mem V) (pv : Ptr × V) => m.store pv.1 pv.2)
          { fields := zeroStruct F R t, scratch := zeroScratch F R t }).fields
        ((cols.filterMap
            (fun c => (switchCol F t c).map (fun g => (fieldTarget F g, fieldValue R s g)))).foldl
          (fun (m : Mem V) (pv : Ptr × V) => m.store pv.1 pv.2)
          { fields := zeroStruct F R t, scratch := zeroScratch F R t }).scratch f.Name
      = if F.colname f.Col ∈ cols then s f.Name
        else if f.isCustom then R.conv (F.retype f.CustomType) (R.zero f.GoType)
        else R.zero (fieldGoType F f) := by
    intro f hf
    rw [assignCustom_mem F R t.Fields _ _ f hwf.2.1 hf]
    have hload := load_after_columns F R t s hwf cols
      { fields := zeroStruct F R t, scratch := zeroScratch F R t } f hf
    by_cases hc : f.isCustom = true
    · have h1 : fieldTarget F f = Ptr.scratch (F.customtypeparam f.Name) := by
        simp [fieldTarget, hc]
      have h2 : fieldValue R s f = R.conv f.GoType (s f.Name) := by simp [fieldValue, hc]
      rw [h1, h2] at hload
      simp only [Mem.load] at hload
      simp only [hc, if_true]
      rw [hload]
      by_cases hin : F.colname f.Col ∈ cols
      · simp only [hin, if_true]
        exact hrt f hf hc hin
      · simp only [hin, if_false]
        rw [zeroScratch_field F R t f hwf.2.2 hf hc]
    · simp only [Bool.not_eq_true] at hc
      have h1 : fieldTarget F f = Ptr.field f.Name := by simp [fieldTarget, hc]
      have h2 : fieldValue R s f = s f.Name := by simp [fieldValue, hc]
      rw [h1, h2] at hload
      simp only [Mem.load] at hload
      simp only [hc, Bool.false_eq_true, if_false]
      rw [hload]
      by_cases hin : F.colname f.Col ∈ cols
      · simp only [hin, if_true]
      · simp only [hin, if_false]
        exact zeroStruct_field F R t f hwf.2.1 hf
  refine ⟨cols.filterMap (fun c => (switchCol F t c).map (fieldValue R s)),
    assignCustom F R t.Fields
      ((cols.filterMap
          (fun c => (switchCol F t c).map (fun g => (fieldTarget F g, fieldValue R s g)))).foldl
        (fun (m : Mem V) (pv : Ptr × V) => m.store pv.1 pv.2)
        { fields := zeroStruct F R t, scratch := zeroScratch F R t }).fields
      ((cols.filterMap
          (fun c => (switchCol F t c).map (fun g => (fieldTarget F g, fieldValue R s g)))).foldl
        (fun (m : Mem V) (pv : Ptr × V) => m.store pv.1 pv.2)
        { fields := zeroStruct F R t, scratch := zeroScratch F R t }).scratch,
    ?_, hlenv, ?_, hmain, ?_⟩
  · simp [columnsToValues, columnsToValuesLoop_ok F R t s cols [] hcols]
  · rw [newDecoder_known F R (rowColumns R) t cols _ _ hcols]
    have hdecoded : ∀ w ∈ cols.filterMap
        (fun c => (switchCol F t c).map (fun g => (fieldTarget F g, fieldValue R s g))),
        R.decodeValue w.1 w.2 = .ok w.2 := by
      intro w hw
      obtain ⟨g, hg, hgin, rfl⟩ := writes_source F R t s cols w hw
      exact hstore g hg hgin
    simp only [rowColumns, hlenp, hlenv, ne_eq, not_true_eq_false, if_false,
      zip_targets_values F R t s hwf.1 cols hcols, columnsLoop_of_decoded R _ _ hdecoded]
  · intro hzero f hf
    rw [hmain f hf]
    by_cases hin : F.colname f.Col ∈ cols
    · simp only [hin, if_true]
    · simp only [hin, if_false]
      by_cases hc : f.isCustom = true
      · simp only [hc, if_true]
        exact hzero f hf hc hin
      · simp only [hc]
        rfl

/-- Instance of C6 as the code behaves, on `Users` with the projection `["score", "email"]`. -/
theorem decode_encode_round_trip_users :
    usersType.WellFormed sampleFuncs ∧
    (∀ c ∈ ["score", "email"], c ∈ TColumns sampleFuncs usersType) ∧
    (∀ f ∈ usersType.Fields, sampleFuncs.colname f.Col ∈ ["score", "email"] →
      sampleRuntime.decodeValue (fieldTarget sampleFuncs f) (fieldValue sampleRuntime sampleUser f)
        = .ok (fieldValue sampleRuntime sampleUser f)) ∧
    ∃ row s1, columnsToValues sampleFuncs sampleRuntime usersType sampleUser ["score", "email"]
        = .ok row ∧
      row.length = ["score", "email"].length ∧
      (newDecoder sampleFuncs sampleRuntime (rowColumns sampleRuntime) usersType
        ["score", "email"] (zeroScratch sampleFuncs sampleRuntime usersType) row).1 = .ok s1 ∧
      (∀ f ∈ usersType.Fields,
        s1 f.Name =
          if sampleFuncs.colname f.Col ∈ ["score", "email"] then sampleUser f.Name
          else if f.isCustom then
            sampleRuntime.conv (sampleFuncs.retype f.CustomType) (sampleRuntime.zero f.GoType)
          else sampleRuntime.zero (fieldGoType sampleFuncs f)) :=
  ⟨by unfold GenType.WellFormed; decide, by decide,
    (by
      intro f hf hin
      simp only [usersType, List.mem_cons, List.mem_singleton, List.mem_nil_iff, or_false] at hf
      rcases hf with rfl | rfl | rfl | rfl
      · exact absurd hin (by decide)
      · rfl
      · exact absurd hin (by decide)
      · rfl),
    (decode_encode_round_trip sampleFuncs sampleRuntime usersType sampleUser ["score", "email"]
      (by unfold GenType.WellFormed; decide) (by decide)
      (by
      intro f hf hin
      simp only [usersType, List.mem_cons, List.mem_singleton, List.mem_nil_iff, or_false] at hf
      rcases hf with rfl | rfl | rfl | rfl
      · exact absurd hin (by decide)
      · rfl
      · exact absurd hin (by decide)
      · rfl)
      (by intro f _ _ _; rfl)).imp
      (fun _ h1 => h1.imp (fun _ h2 => ⟨h2.1, h2.2.1, h2.2.2.1, h2.2.2.2.1⟩))⟩

/-- C6 fails as stated, in two ways.  With conversions between `int64` and `Score` that
undo each other but shift zero (`shiftRuntime`), the decoder for `["email"]` leaves
`Score`, a custom-type field outside the projection, at `1`, not at its zero value `0`.
With the client normalising an invalid `NullString`, the decoder for `["status"]` applied
to the values of `ghostUser` returns the null value for `Status`, not the value of the
struct. -/
theorem decode_encode_round_trip_fails :
    usersType.WellFormed sampleFuncs ∧
    (∀ v, shiftRuntime.conv (sampleFuncs.retype "Score") (shiftRuntime.conv "int64" v) = v) ∧
    columnsToValues sampleFuncs shiftRuntime usersType sampleUser ["email"]
      = .ok [GoValue.str "a@b.com"] ∧
    (newDecoder sampleFuncs shiftRuntime (rowColumns shiftRuntime) usersType ["email"]
        (zeroScratch sampleFuncs shiftRuntime usersType) [GoValue.str "a@b.com"]).1.toOption.map
        (fun s1 => (s1 "Email", s1 "Score"))
      = some (GoValue.str "a@b.com", GoValue.int 1) ∧
    shiftRuntime.zero (fieldGoType sampleFuncs fieldScore) = GoValue.int 0 ∧
    columnsToValues sampleFuncs sampleRuntime usersType ghostUser ["status"]
      = .ok [GoValue.invalidString "ghost"] ∧
    (newDecoder sampleFuncs sampleRuntime (rowColumns sampleRuntime) usersType ["status"]
        (zeroScratch sampleFuncs sampleRuntime usersType)
        [GoValue.invalidString "ghost"]).1.toOption.map (fun s1 => s1 "Status")
      = some GoValue.null ∧
    ghostUser "Status" = GoValue.invalidString "ghost" := by
  refine ⟨by unfold GenType.WellFormed; decide, ?_, rfl, by decide, by decide, rfl, by decide,
    by decide⟩
  intro v
  cases v with
  | int n =>
    simp only [shiftRuntime, sampleFuncs]
    simp
  | str x => rfl
  | null => rfl
  | invalidString x => rfl

/-! ## Index scans: accumulation of the decoded rows -/

theorem foldl_store_fields_congr {V : Type} (ws : List (Ptr × V)) (m m1 : Mem V)
    (h : m.fields = m1.fields) :
    (ws.foldl (fun m pv => m.store pv.1 pv.2) m).fields
      = (ws.foldl (fun m pv => m.store pv.1 pv.2) m1).fields := by
  induction ws generalizing m m1 with
  | nil => exact h
  | cons w rest ih =>
    simp only [List.foldl_cons]
    apply ih
    obtain ⟨p, v⟩ := w
    cases p <;> simp [Mem.store, h]

theorem load_foldl_store_congr {V : Type} (ws : List (Ptr × V)) (m m1 : Mem V) (p : Ptr)
    (hp : ∃ w ∈ ws, w.1 = p) :
    (ws.foldl (fun m pv => m.store pv.1 pv.2) m).load p
      = (ws.foldl (fun m pv => m.store pv.1 pv.2) m1).load p := by
  induction ws generalizing m m1 with
  | nil => simp at hp
  | cons w rest ih =>
    simp only [List.foldl_cons]
    by_cases hr : ∃ w1 ∈ rest, w1.1 = p
    · exact ih _ _ hr
    · have hnot : ∀ w1 ∈ rest, w1.1 ≠ p := fun w1 hw1 hw => hr ⟨w1, hw1, hw⟩
      rw [load_foldl_store_not_mem rest _ p hnot, load_foldl_store_not_mem rest _ p hnot]
      obtain ⟨w1, hw1, hw⟩ := hp
      rcases List.mem_cons.1 hw1 with rfl | hw1
      · rw [← hw, load_store_self, load_store_self]
      · exact absurd hw (hnot w1 hw1)

theorem assignCustom_congr {V : Type} (F : Funcs) (R : Runtime V) (fields : List Field)
    (s : Struct V) (sc sc1 : String → V)
    (h : ∀ f ∈ fields, f.isCustom = true →
      sc (F.customtypeparam f.Name) = sc1 (F.customtypeparam f.Name)) :
    assignCustom F R fields s sc = assignCustom F R fields s sc1 := by
  induction fields generalizing s with
  | nil => rfl
  | cons g rest ih =>
    simp only [assignCustom, List.foldl_cons]
    have hrest := fun s0 => ih s0 (fun f hf => h f (List.mem_cons_of_mem g hf))
    simp only [assignCustom] at hrest
    by_cases hc : g.isCustom = true
    · simp only [hc, if_true, h g (List.mem_cons_self g rest) hc]
      exact hrest _
    · simp only [hc]
      exact hrest _

theorem columnsLoop_cases {V : Type} (R : Runtime V) (ws : List (Ptr × V)) :
    (∃ e, ∀ m, ∃ m1, columnsLoop R ws m = (m1, some e)) ∨
    (∃ ws1 : List (Ptr × V), ws1.map Prod.fst = ws.map Prod.fst ∧
      ∀ m, columnsLoop R ws m = (ws1.foldl (fun m pv => m.store pv.1 pv.2) m, none)) := by
  induction ws with
  | nil => exact Or.inr ⟨[], rfl, fun _ => rfl⟩
  | cons w rest ih =>
    obtain ⟨p, v⟩ := w
    cases hd : R.decodeValue p v with
    | error e =>
      refine Or.inl ⟨e, fun m => ⟨m, ?_⟩⟩
      simp only [columnsLoop, hd]
    | ok x =>
      rcases ih with ⟨e, he⟩ | ⟨ws1, hfst, hws1⟩
      · refine Or.inl ⟨e, fun m => ?_⟩
        obtain ⟨m1, hm1⟩ := he (m.store p x)
        exact ⟨m1, by simp only [columnsLoop, hd, hm1]⟩
      · refine Or.inr ⟨(p, x) :: ws1, by simp [hfst], fun m => ?_⟩
        simp only [columnsLoop, hd, hws1, List.foldl_cons]

/-- A decoder over all columns of `T` returns, for a row, a result that does not depend on
what earlier calls left in its scratch variables. -/
theorem newDecoder_all_columns_scratch_free {V : Type} (F : Funcs) (R : Runtime V)
    (t : GenType) (hwf : t.WellFormed F) (sc sc1 : String → V) (row : Row V) :
    (newDecoder F R (rowColumns R) t (TColumns F t) sc row).1
      = (newDecoder F R (rowColumns R) t (TColumns F t) sc1 row).1 := by
  have hvalid : ∀ c ∈ TColumns F t, c ∈ TColumns F t := fun _ hc => hc
  rw [newDecoder_known F R (rowColumns R) t _ sc row hvalid,
    newDecoder_known F R (rowColumns R) t _ sc1 row hvalid]
  by_cases hlen : ((TColumns F t).filterMap (colTarget F t)).length = row.length
  · simp only [rowColumns, hlen, ne_eq, not_true_eq_false, if_false]
    rcases columnsLoop_cases R (((TColumns F t).filterMap (colTarget F t)).zip row) with
      ⟨e, he⟩ | ⟨ws1, hfst, hws1⟩
    · obtain ⟨m1, hm1⟩ := he { fields := zeroStruct F R t, scratch := sc }
      obtain ⟨m2, hm2⟩ := he { fields := zeroStruct F R t, scratch := sc1 }
      rw [hm1, hm2]
    · rw [hws1, hws1]
      simp only []
      have hfields := foldl_store_fields_congr ws1
        { fields := zeroStruct F R t, scratch := sc }
        { fields := zeroStruct F R t, scratch := sc1 } rfl
      rw [hfields]
      congr 1
      apply assignCustom_congr
      intro f hf hc
      have hmem : Ptr.scratch (F.customtypeparam f.Name)
          ∈ (TColumns F t).filterMap (colTarget F t) := by
        refine List.mem_filterMap.2 ⟨F.colname f.Col,
          List.mem_map_of_mem (fun g : Field => F.colname g.Col) hf, ?_⟩
        rw [colTarget_eq hwf.1 (switchCol_of_field hwf.1 hf)]
        simp [fieldTarget, hc]
      have hzip : ∃ w ∈ ws1, w.1 = Ptr.scratch (F.customtypeparam f.Name) := by
        rw [← List.map_fst_zip _ _ (Nat.le_of_eq hlen), ← hfst] at hmem
        obtain ⟨w, hw, hw1⟩ := List.mem_map.1 hmem
        exact ⟨w, hw, hw1⟩
      have := load_foldl_store_congr ws1
        { fields := zeroStruct F R t, scratch := sc }
        { fields := zeroStruct F R t, scratch := sc1 } _ hzip
      simpa [Mem.load] using this
  · simp only [rowColumns, hlen, ne_eq, not_false_eq_true, if_true]

theorem decodeSeq_all_columns {V : Type} (F : Funcs) (R : Runtime V) (t : GenType)
    (hwf : t.WellFormed F) (rows : List (Row V)) (sc : String → V) :
    decodeSeq F R (rowColumns R) t (TColumns F t) sc rows
      = rows.map (fun row =>
          (newDecoder F R (rowColumns R) t (TColumns F t) (zeroScratch F R t) row).1) := by
  induction rows generalizing sc with
  | nil => rfl
  | cons row rest ih =>
    simp only [decodeSeq, List.map_cons, ih]
    rw [newDecoder_all_columns_scratch_free F R t hwf sc (zeroScratch F R t) row]

/-- C2: for a non-unique index, `Find<FuncName>` over a stream that yields `rows`, all of
which the decoder accepts, and then reports exhaustion returns a nil error and a slice of
exactly as many structs as rows, the i-th being what the decoder returned for the i-th
row; with no rows the slice is empty and the error nil, not a `NotFound` envelope.  With
the materialiser of the Spanner client and a type whose emitted code compiles, what the
decoder returns for a row is what a freshly built decoder returns for it. -/
theorem FindByIdx_many_collects_rows {V K : Type} (F : Funcs) (R : Runtime V)
    (rc : Materialise V) (db : YORODB V K) (idx : GenIndex) (args : Nat → V)
    (rows : List (Row V))
    (h : idx.Index.IsUnique = false)
    (hrows : (db.Query (findStmt F R idx args)).rows = rows)
    (hend : (db.Query (findStmt F R idx args)).err.getD GoError.done = GoError.done)
    (hdec : ∀ r ∈ decodeSeq F R rc idx.Typ (TColumns F idx.Typ) (zeroScratch F R idx.Typ) rows,
      ∃ s, r = .ok s) :
    ∃ structs, FindByIdx F R rc db idx args = FindResult.many (some structs, none) ∧
      structs.length = rows.length ∧
      structs.map Except.ok
        = decodeSeq F R rc idx.Typ (TColumns F idx.Typ) (zeroScratch F R idx.Typ) rows ∧
      (rows = [] → structs = []) ∧
      (rc = rowColumns R → idx.Typ.WellFormed F →
        structs.map Except.ok
          = rows.map (fun row =>
              (newDecoder F R (rowColumns R) idx.Typ (TColumns F idx.Typ)
                (zeroScratch F R idx.Typ) row).1)) := by
  obtain ⟨structs, hloop, hmap⟩ :=
    findLoop_all_decoded F R rc idx _ hend rows (zeroScratch F R idx.Typ) [] hdec
  refine ⟨structs, ?_, ?_, hmap, ?_, ?_⟩
  rotate_right
  · intro hrc hwf
    subst hrc
    rw [hmap]
    exact decodeSeq_all_columns F R idx.Typ hwf rows _
  · simp only [FindByIdx, h, findMany, hrows]
    simpa using hloop
  · have hlen := congrArg List.length hmap
    have hseq : ∀ (rs : List (Row V)) (sc : String → V),
        (decodeSeq F R rc idx.Typ (TColumns F idx.Typ) sc rs).length = rs.length := by
      intro rs
      induction rs with
      | nil => intro sc; rfl
      | cons r rest ih => intro sc; simp [decodeSeq, ih]
    simpa [hseq] using hlen
  · intro hnil
    subst hnil
    simpa [decodeSeq] using hmap

/-- Instance of C2 on the non-unique index of `Users`, over a stream of one row. -/
theorem FindByIdx_many_collects_rows_users :
    usersByEmailStatus.Index.IsUnique = false ∧
    ∃ structs,
      FindByIdx sampleFuncs sampleRuntime (rowColumns sampleRuntime) (sampleDb [sampleRow] none (.ok sampleRow))
          usersByEmailStatus sampleArgs = FindResult.many (some structs, none) ∧
      structs.length = [sampleRow].length ∧
      structs.map Except.ok
        = decodeSeq sampleFuncs sampleRuntime (rowColumns sampleRuntime) usersByEmailStatus.Typ
            (TColumns sampleFuncs usersByEmailStatus.Typ)
            (zeroScratch sampleFuncs sampleRuntime usersByEmailStatus.Typ) [sampleRow] :=
  ⟨rfl,
    (FindByIdx_many_collects_rows sampleFuncs sampleRuntime (rowColumns sampleRuntime)
      (sampleDb [sampleRow] none (.ok sampleRow)) usersByEmailStatus sampleArgs [sampleRow]
      rfl rfl rfl
      (by
        intro r hr
        simp only [decodeSeq, List.mem_singleton] at hr
        subst hr
        exact ⟨_, rfl⟩)).imp (fun _ hc => ⟨hc.1, hc.2.1, hc.2.2.1⟩)⟩

/-- Instance of C5 on `Users`: the projection `["email", "nope"]` is rejected whatever the
materialiser, the projection `["score", "email"]` yields the scratch variable of `Score`
and the address of `Email`. -/
theorem newDecoder_unknown_column_iff_users :
    (∃ c ∈ ["email", "nope"], c ∉ TColumns sampleFuncs usersType) ∧
    (∃ c ∈ ["email", "nope"], c ∉ TColumns sampleFuncs usersType ∧
      ∀ (rc : Materialise GoValue) (sc : String → GoValue) (row : Row GoValue),
        newDecoder sampleFuncs sampleRuntime rc usersType ["email", "nope"] sc row
          = (.error (.errorf ("unknown column: " ++ c)), sc)) ∧
    (∀ c ∈ ["score", "email"], c ∈ TColumns sampleFuncs usersType) ∧
    columnsToPtrs sampleFuncs usersType ["score", "email"] (customPtrs sampleFuncs usersType)
      = .ok [Ptr.scratch "yoScore", Ptr.field "Email"] :=
  ⟨by decide,
    (newDecoder_unknown_column_iff sampleFuncs sampleRuntime usersType ["email", "nope"]).2.1
      (by decide),
    by decide, rfl⟩

end Yo
